import Mathlib

/-!
Verification development for the pdf-ninja document reconstruction pipeline.

The definitions below are a shallow embedding of the Python sources:
* `src/pdf_ninja/extractors/table.py` — IOU geometry and table-detection dedup,
* `src/pdf_ninja/extractors/table/_postprocessor.py` — structural table post-processing,
* `src/pdf_ninja/extractors/text.py` — line-into-block grouping,
* `src/pdf_ninja/builders/parsed_pdf.py` — document assembly and reading order,
* `src/pdf_ninja/dataclasses.py` — data model and flatten-to-text.

Conventions of the embedding:
* Python floats are modelled as rationals (`ℚ`); all arithmetic in these code
  paths is order/equality comparisons, additions, multiplications and divisions.
* `None` becomes `Option.none`; a Python function that can raise is modelled
  with `Except`/`Option`, where the error value stands for the exception.
* Python's `sorted(..., key=k)` (a stable sort) is modelled by
  `List.insertionSort` over the non-strict key relation, which is stable.
-/

namespace PdfNinja

/-- Bounding box `[x0, y0, x1, y1]` in page coordinates
(`src/pdf_ninja/dataclasses.py`, `PdfElement.bbox`). -/
structure BBox where
  x0 : ℚ
  y0 : ℚ
  x1 : ℚ
  y1 : ℚ
  deriving DecidableEq, Repr

/-- `CamelotExtractor._iou` (`src/pdf_ninja/extractors/table.py`, lines 131-146):
intersection-over-union of two optional boxes; `0` when either box is absent
or the union area is falsy (zero). -/
def iou (b1 b2 : Option BBox) : ℚ :=
  match b1, b2 with
  | some b1, some b2 =>
    let x0 := max b1.x0 b2.x0
    let y0 := max b1.y0 b2.y0
    let x1 := min b1.x1 b2.x1
    let y1 := min b1.y1 b2.y1
    let interArea := max 0 (x1 - x0) * max 0 (y1 - y0)
    let b1Area := (b1.x1 - b1.x0) * (b1.y1 - b1.y0)
    let b2Area := (b2.x1 - b2.x0) * (b2.y1 - b2.y0)
    let unionArea := b1Area + b2Area - interArea
    if unionArea = 0 then 0 else interArea / unionArea
  | _, _ => 0

/-- Geometry of one camelot cell (attributes of `camelot.core.Cell` that the
post-processor reads: `row`, `col`, `x1`, `y1`, `x2`, `y2`). -/
structure Cell where
  row : Nat
  col : Nat
  x1 : ℚ
  y1 : ℚ
  x2 : ℚ
  y2 : ℚ
  deriving DecidableEq, Repr

/-- The fields of a `camelot.core.Table` consulted by the pipeline:
`_bbox` and `flavor` by `_dedupe_by_bbox`, `df` and `cells` by
`TablePostprocessor._process_one` (each read through `getattr(..., None)`,
hence `Option`), and `page` by `_create_elements`. The dataframe is the
row-major grid of raw cell strings. -/
structure Table where
  bbox : Option BBox
  flavor : String
  df : Option (List (List String)) := none
  cells : Option (List Cell) := none
  page : Int := 1
  deriving DecidableEq, Repr

/-- `Modelled from the spec:` the constant `TABLE_IOU_THRESHOLD` is imported
from `pdf_ninja.config.constants`, a module absent from the sources; the spec
gives the default IOU threshold as 0.6. -/
def TABLE_IOU_THRESHOLD : ℚ := 6 / 10

/-- One iteration of the accumulator loop in `CamelotExtractor._dedupe_by_bbox`
(`src/pdf_ninja/extractors/table.py`, lines 103-126): skip a candidate without
a bbox; otherwise find the first kept table whose IOU with the candidate
exceeds the threshold (the `for`/`break` scan); on no overlap append, on an
overlap replace the matched kept table exactly when the candidate's flavor is
`"stream"` and the matched one's is `"lattice"`, else discard the candidate. -/
def dedupeStep (thr : ℚ) (unique : List Table) (t : Table) : List Table :=
  match t.bbox with
  | none => unique
  | some _ =>
    match unique.findIdx? (fun u => thr < iou t.bbox u.bbox) with
    | none => unique ++ [t]
    | some i =>
      let current := unique.getD i t
      if t.flavor = "stream" ∧ current.flavor = "lattice" then
        unique.set i t
      else
        unique

/-- `CamelotExtractor._dedupe_by_bbox` (`src/pdf_ninja/extractors/table.py`,
lines 100-128), parametrized by the IOU threshold. -/
def dedupeByBbox (thr : ℚ) (tables : List Table) : List Table :=
  tables.foldl (dedupeStep thr) []

/-- The accumulator invariant of the dedup loop: pairwise IOU at most the
threshold and every kept detection has a bbox. -/
def dedupInv (thr : ℚ) (l : List Table) : Prop :=
  l.Pairwise (fun a b => iou a.bbox b.bbox ≤ thr) ∧ ∀ a ∈ l, a.bbox.isSome = true

/-! ### String utilities

Character-level embedding of the Python string operations used by the
post-processor: `str.strip`, `str.lower`, the two regular expressions
`_NUMERIC_RE` and `_HEADER_TOKEN_HINTS`, `re.sub(r"\s{2,}", " ", s)` and
`re.findall(r"[A-Za-z0-9%$]+", s)`. -/

/-- Python's `\s` character class / `str.strip` whitespace, ASCII range. -/
def isPySpace (c : Char) : Bool :=
  c = ' ' || c = '\t' || c = '\n' || c = '\r' || c = '\x0b' || c = '\x0c'

/-- `str.strip()` on a character list. -/
def stripChars (l : List Char) : List Char :=
  ((l.dropWhile isPySpace).reverse.dropWhile isPySpace).reverse

/-- `str.strip()`. -/
def pyStrip (s : String) : String :=
  ⟨stripChars s.data⟩

/-- `str.lower()` (ASCII). -/
def pyLower (s : String) : String :=
  ⟨s.data.map Char.toLower⟩

/-- Cell normalization in `CamelotExtractor._create_elements`
(`src/pdf_ninja/extractors/table.py`, line 69):
`cell.strip() if isinstance(cell, str) and cell.strip() else None` — the
stripped cell, or `None` when the cell is blank. -/
def normalizeCell (cell : String) : Option String :=
  if pyStrip cell = "" then none else some (pyStrip cell)

/-- Nondeterministic matcher: a regex fragment maps an input suffix to the
list of suffixes left over after every possible way of consuming a prefix. -/
abbrev ReM := List Char → List (List Char)

/-- Match one character satisfying `p`. -/
def chM (p : Char → Bool) : ReM := fun s =>
  match s with
  | [] => []
  | c :: rest => if p c then [rest] else []

/-- The empty fragment. -/
def epsM : ReM := fun s => [s]

/-- Sequencing of fragments. -/
def seqM (a b : ReM) : ReM := fun s => (a s).flatMap b

/-- Alternation of fragments. -/
def altM (a b : ReM) : ReM := fun s => a s ++ b s

/-- `r?`. -/
def optM (a : ReM) : ReM := altM a epsM

/-- `r*`, with fuel bounding the number of repetitions (every fragment below
consumes at least one character, so fuel = input length is enough). -/
def starM (a : ReM) : Nat → ReM
  | 0 => epsM
  | n + 1 => altM (seqM a (starM a n)) epsM

/-- `\d`. -/
def digitM : ReM := chM Char.isDigit

/-- `\d{1,3}`. -/
def d13M : ReM := seqM digitM (optM (seqM digitM (optM digitM)))

/-- `[, ]\d{3}` — one thousands group of `_NUMERIC_RE`. -/
def thousandsGroupM : ReM :=
  seqM (chM (fun c => c = ',' || c = ' ')) (seqM digitM (seqM digitM digitM))

/-- `_NUMERIC_RE` (`src/pdf_ninja/extractors/table/_postprocessor.py`, lines
17-28) matched against a whole string by `re.match` (the pattern is anchored
by `^...\s*$`; `$` also accepts a position just before one final newline). -/
def numericReMatch (s : List Char) : Bool :=
  let n := s.length
  let pat : ReM :=
    seqM (starM (chM isPySpace) n) <|
    seqM (optM (chM (fun c => c = '(' || c = '+' || c = '-'))) <|
    seqM (altM (seqM d13M (starM thousandsGroupM n))
               (seqM digitM (starM digitM n))) <|
    seqM (optM (seqM (chM (fun c => c = '.')) (seqM digitM (starM digitM n)))) <|
    seqM (optM (seqM (optM (chM isPySpace))
               (starM (chM (fun c => c = '%' || c = '$' || c.isAlpha)) n)))
         (starM (chM isPySpace) n)
  (pat s).any (fun r => r = [] || r = ['\n'])

/-- `TablePostprocessor._is_numeric_like` (lines 176-180). -/
def isNumericLike (x : String) : Bool :=
  if x = "" || pyStrip x = "" then false else numericReMatch x.data

/-- Does `needle` occur at the head of `hay`? -/
def startsWithChars : List Char → List Char → Bool
  | [], _ => true
  | _ :: _, [] => false
  | n :: ns, h :: hs => n = h && startsWithChars ns hs

/-- Does `needle` occur anywhere in `hay` (Python `re.search` on a literal)? -/
def containsChars (needle : List Char) : List Char → Bool
  | [] => startsWithChars needle []
  | h :: hs => startsWithChars needle (h :: hs) || containsChars needle hs

/-- The alternatives of `_HEADER_TOKEN_HINTS` (lines 30-33). Searching for
`notes?` (resp. `highlights?`) succeeds exactly when the literal `note`
(resp. `highlight`) occurs, since the trailing `s` is optional. -/
def headerTokenNeedles : List String :=
  ["year", "quarter", "three", "months", "ended", "note", "highlight",
   "currency", "usd", "cad", "unaudited", "audited"]

/-- `re.search` of the case-insensitive `_HEADER_TOKEN_HINTS` pattern. -/
def headerTokenSearch (s : String) : Bool :=
  headerTokenNeedles.any (fun w => containsChars w.data (pyLower s).data)

/-- `TablePostprocessor._has_header_tokens` (lines 182-186). -/
def hasHeaderTokens (x : String) : Bool :=
  if x = "" then false else headerTokenSearch x

/-- `TablePostprocessor._is_nonempty` (lines 172-174): truthy and not
whitespace-only. -/
def isNonempty (x : String) : Bool :=
  !(x = "") && !(pyStrip x = "")

/-- The walk behind `re.sub(r"\s{2,}", " ", s)`: a maximal whitespace run of
length ≥ 2 becomes a single space, a lone whitespace character stays; the
flag records being inside a run whose replacement was already emitted. -/
def collapseWsGo (inRun : Bool) : List Char → List Char
  | [] => []
  | c :: rest =>
    if isPySpace c then
      if inRun then collapseWsGo true rest
      else
        match rest with
        | d :: _ =>
          if isPySpace d then ' ' :: collapseWsGo true rest
          else c :: collapseWsGo false rest
        | [] => [c]
    else c :: collapseWsGo false rest

/-- `re.sub(r"\s{2,}", " ", s)` on a character list. -/
def collapseWsRuns (l : List Char) : List Char :=
  collapseWsGo false l

/-- The cell normalizer `norm` inside `TablePostprocessor._normalize_df`
(lines 161-170): drop carriage returns and newlines to spaces, strip, and
collapse internal whitespace runs. (The `None`/NaN branch never applies: the
modelled dataframe holds strings.) -/
def normCell (x : String) : String :=
  let s := stripChars (x.data.map (fun c => if c = '\r' || c = '\n' then ' ' else c))
  ⟨collapseWsRuns s⟩

/-- A character of the `[A-Za-z0-9%$]` class of `_tokenize`. -/
def isTokChar (c : Char) : Bool :=
  c.isAlphanum || c = '%' || c = '$'

/-- The `re.findall` walk of `_tokenize`: accumulate the current (reversed)
run of token characters and emit it when the run ends. -/
def tokenizeGo (acc : List Char) : List Char → List String
  | [] => if acc = [] then [] else [(⟨acc.reverse⟩ : String)]
  | c :: rest =>
    if isTokChar c then tokenizeGo (c :: acc) rest
    else if acc = [] then tokenizeGo [] rest
    else (⟨acc.reverse⟩ : String) :: tokenizeGo [] rest

/-- `TablePostprocessor._tokenize` (lines 331-335): maximal runs of
`[A-Za-z0-9%$]` in the lower-cased string. -/
def tokenizeChars (l : List Char) : List String :=
  tokenizeGo [] l

/-- `TablePostprocessor._tokenize` on a string (returns `[]` for falsy input). -/
def tokenize (s : String) : List String :=
  if s = "" then [] else tokenizeChars (pyLower s).data

/-- `TablePostprocessor._jaccard` (lines 337-343) over token sets. -/
def jaccard (a b : Finset String) : ℚ :=
  if a = ∅ || b = ∅ then 0
  else
    let inter := (a ∩ b).card
    let union := (a ∪ b).card
    if union = 0 then 0 else (inter : ℚ) / (union : ℚ)

/-! ### Data model (`src/pdf_ninja/dataclasses.py`) -/

/-- The `ElementType` literal. -/
inductive ElementType where
  | text
  | table
  | image
  | figure
  deriving DecidableEq, Repr

/-- The keys of the free-form `PdfElement.meta` dict that the pipeline reads
or writes (`_camelot_table`, `id`, `split_from`, `header`, `caption`,
`source`, `merged_lines`), modelled as typed optional fields; an absent key
is `none`. -/
structure Meta where
  camelotTable : Option Table := none
  id : Option String := none
  splitFrom : Option String := none
  header : Option (List String) := none
  caption : Option String := none
  source : Option String := none
  mergedLines : Option Nat := none
  deriving DecidableEq, Repr

/-- The `PdfElement` dataclass. Table cells may be `None` (the extractor
stores blank cells as `None`), hence `Option String` cells. -/
structure PdfElement where
  type : ElementType
  page : Int
  order : Int := -1
  content : Option String := none
  rows : Option (List (List (Option String))) := none
  bbox : Option BBox := none
  fontSize : Option ℚ := none
  fontName : Option String := none
  meta : Meta := {}
  deriving DecidableEq, Repr

/-! ### Table structural post-processor
(`src/pdf_ninja/extractors/table/_postprocessor.py`) -/

namespace TablePostprocessor

/-- Constructor default `min_cols_for_header`. -/
def minColsForHeader : Nat := 2

/-- Constructor default `numeric_ratio_header_max`. -/
def numericRatioHeaderMax : ℚ := 35 / 100

/-- Constructor default `header_token_boost`. -/
def headerTokenBoost : ℚ := 15 / 100

/-- Constructor default `gap_multiplier`. -/
def gapMultiplier : ℚ := 16 / 10

/-- Constructor default `reheader_allow_numeric_ratio_max`. -/
def reheaderAllowNumericRatioMax : ℚ := 5 / 10

/-- Row-wise `mask.mean(axis=1)`: the fraction of cells satisfying `p`.
(For a zero-column row pandas yields NaN; NaN and the `0` returned here take
the same branch in every comparison consuming these ratios below.) -/
def ratioCount (p : String → Bool) (row : List String) : ℚ :=
  (row.countP p : ℚ) / (row.length : ℚ)

/-- `header_score = (1 - numeric_ratio) * nonempty_ratio + header_hint * boost`
(line 108). -/
def headerScores (nr ner : List ℚ) (hh : List Bool) : List ℚ :=
  List.zipWith (fun (p : ℚ × ℚ) (h : Bool) =>
    (1 - p.1) * p.2 + (if h then 1 else 0) * headerTokenBoost) (nr.zip ner) hh

/-- The scan loop of `_detect_header_block` (lines 200-214): `started` is
whether `rows` is nonempty so far; a sparse row joins only a started block;
a dense row joins while `numeric_ratio ≤ max` or `header_score ≥ 0.6`,
otherwise the loop breaks. -/
def detectHeaderScan (hs nr : List ℚ) : Nat → List (List String) → Bool → List Nat
  | _, [], _ => []
  | i, row :: rest, started =>
    let ne := row.countP isNonempty
    if ne < minColsForHeader then
      if started then i :: detectHeaderScan hs nr (i + 1) rest true
      else detectHeaderScan hs nr (i + 1) rest false
    else if nr.getD i 0 ≤ numericRatioHeaderMax ∨ hs.getD i 0 ≥ 6 / 10 then
      i :: detectHeaderScan hs nr (i + 1) rest true
    else []

/-- `TablePostprocessor._detect_header_block` (lines 188-220): the scan
followed by trimming trailing fully-empty rows. -/
def detectHeaderBlock (df : List (List String)) (hs nr : List ℚ) : List Nat :=
  let rows := detectHeaderScan hs nr 0 df false
  (rows.reverse.dropWhile (fun i => !((df.getD i []).any isNonempty))).reverse

/-- `TablePostprocessor._collapse_header` (lines 222-237). The body keeps the
original pandas index labels (`df.iloc[mask]` preserves them), modelled as
`(label, row)` pairs. -/
def collapseHeader (df : List (List String)) (headerRows : List Nat) :
    List (Nat × List String) × Option (List String) :=
  if headerRows = [] then (df.enum, none)
  else
    let ncols := (df.headD []).length
    let header := (List.range ncols).map (fun col =>
      pyStrip (String.intercalate " "
        ((headerRows.map (fun i => (df.getD i []).getD col "")).filter
          (fun v => !(v = "") && !(pyStrip v = "")))))
    (df.enum.filter (fun p => !(headerRows.contains p.1)), some header)

/-- `TablePostprocessor._row_positions` (lines 239-249): for each distinct
cell row index in ascending order, the mean of the cells' `y1`. -/
def rowPositions (cells : List Cell) : List ℚ :=
  let keys := ((cells.map Cell.row).dedup).insertionSort (· ≤ ·)
  keys.map (fun k =>
    let ys := (cells.filter (fun c => c.row = k)).map Cell.y1
    ys.sum / (ys.length : ℚ))

/-- `TablePostprocessor._row_gaps` (lines 251-256). -/
def rowGaps (pos : List ℚ) : List ℚ :=
  if pos.length ≤ 1 then [] else List.zipWith (fun a b => |a - b|) pos pos.tail

/-- `np.median`: middle of the sorted list, or the mean of the two middles. -/
def median (l : List ℚ) : ℚ :=
  let s := l.insertionSort (· ≤ ·)
  let n := s.length
  if n % 2 = 1 then s.getD (n / 2) 0
  else (s.getD (n / 2 - 1) 0 + s.getD (n / 2) 0) / 2

/-- The `for` loop of `_detect_reheader_rows` de-duplicates indices against
the last index it appended: `if not dedup or i != dedup[-1] + 1` (lines
300-305). -/
def dedupConsecutive : List Nat → Option Nat → List Nat
  | [], _ => []
  | i :: rest, none => i :: dedupConsecutive rest (some i)
  | i :: rest, some j =>
    if i ≠ j + 1 then i :: dedupConsecutive rest (some i)
    else dedupConsecutive rest (some j)

/-- The per-row body of the `_detect_reheader_rows` loop (lines 279-299):
gate on the (positionally indexed) full-table ratios, then flag the row when
its token Jaccard overlap with the resolved header reaches 0.2 or it carries
an explicit header hint. -/
def reheaderCheck (nr ner : List ℚ) (headerTokens : Finset String)
    (i : Nat) (row : List String) : Option Nat :=
  if nr.getD i 0 > reheaderAllowNumericRatioMax then none
  else if ner.getD i 0 < 4 / 10 then none
  else if headerTokens ≠ ∅ then
    let rowTokens := (row.flatMap tokenize).toFinset
    if jaccard rowTokens headerTokens ≥ 2 / 10 then some i
    else if row.any hasHeaderTokens then some i
    else none
  else if row.any hasHeaderTokens then some i
  else none

/-- `TablePostprocessor._detect_reheader_rows` (lines 258-305). `body` is the
post-collapse dataframe with original labels; the loop walks it positionally
while indexing the full-table `numeric_ratio`/`nonempty_ratio` arrays with
the same positional index (as the source does). -/
def detectReheaderRows (body : List (Nat × List String)) (nr ner : List ℚ)
    (header : Option (List String)) : List Nat :=
  if body = [] then []
  else
    let headerTokens : Finset String :=
      if header.getD [] = [] then ∅
      else ((header.getD []).flatMap tokenize).toFinset
    dedupConsecutive
      (body.enum.filterMap (fun ir => reheaderCheck nr ner headerTokens ir.1 ir.2.2))
      none

/-- `TablePostprocessor._slice_chunks` (lines 307-317): positional slices of
the body at the split points. -/
def sliceChunks (body : List (Nat × List String)) :
    List Nat → Nat → List (List (Nat × List String))
  | [], _ => []
  | s :: stops, cur =>
    if s ≤ cur then sliceChunks body stops cur
    else ((body.drop cur).take (s - cur)) :: sliceChunks body stops s

/-- `TablePostprocessor._bbox_for_rows` (lines 319-329): min/max corner
coordinates of the cells whose row index is selected, falling back to all
cells; `min()` of an empty sequence raises `ValueError`, modelled as the
error case. -/
def bboxForRows (cells : List Cell) (rowIdx : List Nat) : Except Unit BBox :=
  let sel := cells.filter (fun c => rowIdx.contains c.row)
  let sel := if sel = [] then cells else sel
  match sel with
  | [] => .error ()
  | c :: rest =>
    .ok { x0 := (rest.map Cell.x1).foldl min c.x1
          y0 := (rest.map Cell.y1).foldl min c.y1
          x1 := (rest.map Cell.x2).foldl max c.x2
          y1 := (rest.map Cell.y2).foldl max c.y2 }

/-- `TablePostprocessor._process_one` (lines 87-159). The `Except` error
stands for an exception escaping the method (to be caught per element by
`_process`). -/
def processOne (elem : PdfElement) : Except Unit (List PdfElement) :=
  match elem.meta.camelotTable.bind Table.df, elem.meta.camelotTable.bind Table.cells with
  | some df0, some cells =>
    let df := df0.map (List.map normCell)
    let nr := df.map (ratioCount isNumericLike)
    let ner := df.map (ratioCount isNonempty)
    let hh := df.map (fun row => row.any hasHeaderTokens)
    let hs := headerScores nr ner hh
    let headerRowIdx := detectHeaderBlock df hs nr
    let bh := collapseHeader df headerRowIdx
    let body := bh.1
    let header := bh.2
    let gaps := rowGaps (rowPositions cells)
    let reheaderIdx := detectReheaderRows body nr ner header
    let gapSplits := gaps.enum.filterMap (fun (ig : Nat × ℚ) =>
      if ig.2 > median gaps * gapMultiplier then some (ig.1 + 1) else none)
    let startRow := match headerRowIdx.getLast? with
      | some last => max (last + 1) 0
      | none => 0
    let splitPoints :=
      (((reheaderIdx ++ gapSplits).dedup.filter (fun i => startRow ≤ i)).insertionSort (· ≤ ·))
    let chunks := sliceChunks body (splitPoints ++ [body.length]) startRow
    let ncols := (df.headD []).length
    let build := chunks.foldlM (fun (acc : List PdfElement) chunk =>
      if chunk = [] ∨ ncols = 0 then pure acc
      else do
        let bbox ← bboxForRows cells (chunk.map Prod.fst)
        let meta' : Meta := { elem.meta with
          splitFrom := match elem.meta.id with
            | some v => some v
            | none => elem.meta.splitFrom
          header := header }
        let rows' : List (List (Option String)) :=
          if header.getD [] = [] then
            chunk.map (fun pr : Nat × List String => pr.2.map some)
          else
            ((header.getD []).map some) ::
              chunk.map (fun pr : Nat × List String => pr.2.map some)
        pure (acc ++ [{ elem with rows := some rows', bbox := some bbox, meta := meta' }])) []
    build.map (fun results => if results = [] then [elem] else results)
  | _, _ => .ok [elem]

/-- The per-element body of `TablePostprocessor._process` (lines 71-81):
non-table elements pass through; a table element is post-processed, and any
exception is caught and the element passed through unchanged. -/
def processElem (elem : PdfElement) : List PdfElement :=
  if elem.type ≠ ElementType.table then [elem]
  else
    match processOne elem with
    | .ok cleaned => cleaned
    | .error _ => [elem]

/-- `TablePostprocessor._process` (lines 66-85) over a page-keyed mapping
(dict modelled as an insertion-ordered association list). -/
def processPages (elementsByPage : List (Int × List PdfElement)) :
    List (Int × List PdfElement) :=
  elementsByPage.map (fun pe => (pe.1, pe.2.flatMap processElem))

/-- The public `TablePostprocessor.process` (lines 63-64): it returns its
input unchanged. -/
def process (elementsByPage : List (Int × List PdfElement)) :
    List (Int × List PdfElement) :=
  elementsByPage

end TablePostprocessor

/-! ### Document assembly (`src/pdf_ninja/builders/parsed_pdf.py`) and
flatten-to-text (`src/pdf_ninja/dataclasses.py`) -/

/-- The sort key of `PdfBuilder._sort_elements` (lines 51-57):
`(bbox[1], bbox[0])`, i.e. `(top, left)`, with `float("inf")` for both
components when the bbox is absent (modelled by `none`). -/
def sortKey (el : PdfElement) : Option (ℚ × ℚ) :=
  el.bbox.map (fun b => (b.y0, b.x0))

/-- Comparison of two sort keys, exactly Python's tuple comparison with
`(inf, inf)` for a missing key: `none` compares equal to `none` and greater
than every `some`. -/
def keyLE : Option (ℚ × ℚ) → Option (ℚ × ℚ) → Prop
  | none, none => True
  | none, some _ => False
  | some _, none => True
  | some p, some q => p.1 < q.1 ∨ (p.1 = q.1 ∧ p.2 ≤ q.2)

instance : ∀ a b, Decidable (keyLE a b)
  | none, none => isTrue trivial
  | none, some _ => isFalse fun h => h
  | some _, none => isTrue trivial
  | some _, some _ => inferInstanceAs (Decidable (_ ∨ _))

/-- The reading-order relation on elements. -/
def elemLE (a b : PdfElement) : Prop := keyLE (sortKey a) (sortKey b)

instance : ∀ a b, Decidable (elemLE a b) := fun a b =>
  inferInstanceAs (Decidable (keyLE _ _))

instance : IsTotal PdfElement elemLE :=
  ⟨fun x y => by
    show keyLE (sortKey x) (sortKey y) ∨ keyLE (sortKey y) (sortKey x)
    match sortKey x, sortKey y with
    | none, none => exact Or.inl trivial
    | none, some _ => exact Or.inr trivial
    | some _, none => exact Or.inl trivial
    | some p, some q =>
      rcases lt_trichotomy p.1 q.1 with h | h | h
      · exact Or.inl (Or.inl h)
      · rcases le_total p.2 q.2 with h2 | h2
        · exact Or.inl (Or.inr ⟨h, h2⟩)
        · exact Or.inr (Or.inr ⟨h.symm, h2⟩)
      · exact Or.inr (Or.inl h)⟩

instance : IsTrans PdfElement elemLE :=
  ⟨fun x y z h1 h2 => by
    show keyLE (sortKey x) (sortKey z)
    revert h1 h2
    show keyLE (sortKey x) (sortKey y) → keyLE (sortKey y) (sortKey z) →
      keyLE (sortKey x) (sortKey z)
    match sortKey x, sortKey y, sortKey z with
    | none, none, k => exact fun _ h2 => h2
    | none, some _, _ => exact fun h1 _ => absurd h1 not_false
    | some _, _, none => exact fun _ _ => trivial
    | some _, none, some _ => exact fun _ h2 => absurd h2 not_false
    | some p, some q, some r =>
      intro h1 h2
      rcases h1 with h1 | ⟨h1e, h1x⟩ <;> rcases h2 with h2 | ⟨h2e, h2x⟩
      · exact Or.inl (h1.trans h2)
      · exact Or.inl (h2e ▸ h1)
      · exact Or.inl (h1e ▸ h2)
      · exact Or.inr ⟨h1e.trans h2e, h1x.trans h2x⟩⟩

/-- `PdfBuilder._sort_elements` (lines 44-58): Python's stable `sorted` by
the `(top, left, missing-last)` key, modelled by stable insertion sort. -/
def sortElements (elements : List PdfElement) : List PdfElement :=
  elements.insertionSort elemLE

/-- The `ExtractedElements` dataclass: per-type page-to-elements dicts
(insertion-ordered association lists) and the metadata map. -/
structure ExtractedElements where
  text : Option (List (Int × List PdfElement)) := some []
  tables : Option (List (Int × List PdfElement)) := some []
  images : Option (List (Int × List PdfElement)) := some []
  figures : Option (List (Int × List PdfElement)) := some []
  meta : List (String × String) := []

/-- `page_map.setdefault(page_num, []).extend(elements)` on an
insertion-ordered dict. -/
def setdefaultExtend (m : List (Int × List PdfElement)) (k : Int)
    (v : List PdfElement) : List (Int × List PdfElement) :=
  if m.any (fun p => p.1 = k) then
    m.map (fun p => if p.1 = k then (p.1, p.2 ++ v) else p)
  else m ++ [(k, v)]

/-- The page-map accumulation loop of `PdfBuilder.build_parsed_pdf`
(lines 16-26); a falsy (absent) per-type dict is skipped. -/
def buildPageMap (ex : ExtractedElements) : List (Int × List PdfElement) :=
  [ex.text, ex.tables, ex.images, ex.figures].foldl (fun m d =>
    match d with
    | none => m
    | some entries => entries.foldl (fun m kv => setdefaultExtend m kv.1 kv.2) m) []

/-- `PdfPage` (`src/pdf_ninja/dataclasses.py`). -/
structure PdfPage where
  pageNumber : Int
  elements : List PdfElement := []
  deriving DecidableEq, Repr

/-- `ParsedPdf` (`src/pdf_ninja/dataclasses.py`). -/
structure ParsedPdf where
  source : String
  metadata : List (String × String) := []
  pages : List PdfPage := []

/-- Order on page-map items: Python's `sorted(page_map.items())` compares
the `(page_num, elements)` tuples, deciding on the distinct keys. -/
def pageItemLE (a b : Int × List PdfElement) : Prop := a.1 ≤ b.1

instance : ∀ a b, Decidable (pageItemLE a b) := fun a b =>
  inferInstanceAs (Decidable (a.1 ≤ b.1))

instance : IsTotal (Int × List PdfElement) pageItemLE := ⟨fun a b => le_total a.1 b.1⟩

instance : IsTrans (Int × List PdfElement) pageItemLE := ⟨fun _ _ _ => le_trans⟩

/-- `PdfBuilder.build_parsed_pdf` (lines 11-42): union the per-type page
maps, sort each page's elements into reading order, assign `order` as the
position in the sorted sequence, and build pages sorted by page number. -/
def buildParsedPdf (ex : ExtractedElements) : ParsedPdf :=
  let pageMap := buildPageMap ex
  let pages := (pageMap.insertionSort pageItemLE).map (fun kv =>
    let sortedEls := sortElements kv.2
    { pageNumber := kv.1
      elements := sortedEls.mapIdx (fun i el => { el with order := (i : Int) }) })
  { source := ((ex.meta.lookup "source").getD "")
    metadata := ex.meta
    pages := pages }

/-- `sorted(self.elements, key=lambda e: e.order)` in `PdfPage.stringify`. -/
def orderLE (a b : PdfElement) : Prop := a.order ≤ b.order

instance : ∀ a b, Decidable (orderLE a b) := fun a b =>
  inferInstanceAs (Decidable (a.order ≤ b.order))

instance : IsTotal PdfElement orderLE := ⟨fun a b => le_total a.order b.order⟩

instance : IsTrans PdfElement orderLE := ⟨fun _ _ _ => le_trans⟩

/-- `" | ".join(r)` over one table row: raises `TypeError` (modelled as
`none`) when the row contains a `None` cell. -/
def joinTableRow (r : List (Option String)) : Option String :=
  (r.mapM id).map (String.intercalate " | ")

/-- The per-element body of the loop in `PdfPage.stringify`
(`src/pdf_ninja/dataclasses.py`, lines 62-75): the list of lines the element
contributes, or `none` when the iteration raises. -/
def elementLines (includeTables includeImages : Bool) (el : PdfElement) :
    Option (List String) :=
  match el.type with
  | .text => some [el.content.getD ""]
  | .table =>
    if includeTables then
      match el.rows with
      | some rows =>
        if rows = [] then
          match el.content with
          | some c => if c = "" then some [] else some [c]
          | none => some []
        else
          (rows.mapM joinTableRow).map (fun rs => [String.intercalate "\n" rs])
      | none =>
        match el.content with
        | some c => if c = "" then some [] else some [c]
        | none => some []
    else some []
  | .image | .figure =>
    if includeImages then
      match el.meta.caption with
      | some c => if c = "" then some [] else some ["[Image: " ++ c ++ "]"]
      | none => some []
    else some []

/-- The `lines` accumulation of `PdfPage.stringify`; `none` as soon as one
element raises. -/
def collectLines (includeTables includeImages : Bool) :
    List PdfElement → Option (List String)
  | [] => some []
  | el :: rest => do
    let a ← elementLines includeTables includeImages el
    let b ← collectLines includeTables includeImages rest
    pure (a ++ b)

/-- `PdfPage.stringify` (`src/pdf_ninja/dataclasses.py`, lines 52-76):
flatten the page, walking elements by ascending `order`; `none` models the
`TypeError` raised when a included table row holds a `None` cell. -/
def stringifyPage (includeTables includeImages : Bool) (p : PdfPage) :
    Option String :=
  (collectLines includeTables includeImages (p.elements.insertionSort orderLE)).map
    (fun lines => pyStrip (String.intercalate "\n\n" lines))

/-! ### Text line/block grouper (`src/pdf_ninja/extractors/text.py`) -/

namespace TextExtractor

/-- The merge condition of `_group_lines_into_blocks` (lines 115-122):
vertical gap from the previous line's bottom to the current line's top at
most `y_gap`, same font name, and font sizes (`None` read as `0`) within
`0.5`. `false` when either bbox is missing (that case is skipped before the
condition in the source). -/
def lineMergeCond (yGap : ℚ) (prev curr : PdfElement) : Bool :=
  match prev.bbox, curr.bbox with
  | some pb, some cb =>
    decide (cb.y0 - pb.y1 ≤ yGap) &&
      (decide (prev.fontName = curr.fontName) &&
        decide (|prev.fontSize.getD 0 - curr.fontSize.getD 0| < 1 / 2))
  | _, _ => false

/-- The block-building loop of `_group_lines_into_blocks` (lines 108-129),
walking `zip(lines, lines[1:])` with the running `current_block` and the
accumulated `blocks`; a pair with a missing bbox is skipped (`continue`),
silently dropping `curr` from every block. -/
def blocksGo (yGap : ℚ) :
    List (PdfElement × PdfElement) → List PdfElement → List (List PdfElement) →
      List (List PdfElement)
  | [], cur, blocks => if cur = [] then blocks else blocks ++ [cur]
  | (prev, curr) :: rest, cur, blocks =>
    if !(prev.bbox.isSome && curr.bbox.isSome) then blocksGo yGap rest cur blocks
    else if lineMergeCond yGap prev curr then blocksGo yGap rest (cur ++ [curr]) blocks
    else blocksGo yGap rest [curr] (blocks ++ [cur])

/-- The grouping phase of `_group_lines_into_blocks`: partition the line
elements into blocks. -/
def groupBlocks (yGap : ℚ) : List PdfElement → List (List PdfElement)
  | [] => []
  | l0 :: rest => blocksGo yGap ((l0 :: rest).zip rest) [l0] []

/-- `TextExtractor._merge_block` (lines 138-155): collapse a block into one
text element; `none` models the `ValueError` raised by `min()`/`max()` when
no line in the block has a bbox (or the block is empty). -/
def mergeBlock (lines : List PdfElement) : Option PdfElement :=
  match lines with
  | [] => none
  | base :: _ =>
    let text := String.intercalate " "
      ((lines.filter (fun l => !(l.content.getD "" = ""))).map
        (fun l => pyStrip (l.content.getD "")))
    match lines.filterMap PdfElement.bbox with
    | [] => none
    | b :: brest =>
      some { type := ElementType.text
             page := base.page
             content := some text
             bbox := some { x0 := (brest.map BBox.x0).foldl min b.x0
                            y0 := (brest.map BBox.y0).foldl min b.y0
                            x1 := (brest.map BBox.x1).foldl max b.x1
                            y1 := (brest.map BBox.y1).foldl max b.y1 }
             fontSize := base.fontSize
             fontName := base.fontName
             meta := { base.meta with mergedLines := some lines.length } }

/-- `TextExtractor._group_lines_into_blocks` (lines 98-136). -/
def groupLinesIntoBlocks (yGap : ℚ) (lines : List PdfElement) :
    Option (List PdfElement) :=
  if lines = [] then some []
  else (groupBlocks yGap lines).mapM mergeBlock

/-- The block partition in the spec's words (§4.2 step 4): walk consecutive
lines, merging `curr` into the current block exactly when the merge
condition holds of the previous line and `curr`, otherwise starting a new
block at `curr`. Stated as a second, spec-side definition to compare with
the code's `groupBlocks`. -/
def specChunks (p : PdfElement → PdfElement → Bool) : List PdfElement → List (List PdfElement)
  | [] => []
  | [x] => [[x]]
  | x :: y :: rest =>
    match specChunks p (y :: rest) with
    | [] => [[x]]
    | c :: cs => if p x y then (x :: c) :: cs else [x] :: c :: cs

end TextExtractor

/-! ### Concrete fixtures used by counterexamples and witnesses -/

/-- A kept lattice detection at `[0,0,10,10]`. -/
def tabLatA : Table := { bbox := some ⟨0, 0, 10, 10⟩, flavor := "lattice" }

/-- A second lattice detection at `[3,0,13,10]`; IOU with `tabLatA` is
`7/13 ≈ 0.538`, below the 0.6 threshold, so both get kept. -/
def tabLatB : Table := { bbox := some ⟨3, 0, 13, 10⟩, flavor := "lattice" }

/-- A stream candidate at `[2,0,12,10]`; IOU `2/3` with `tabLatA` and `9/11`
with `tabLatB` — above the threshold against both kept detections, with the
larger IOU against `tabLatB`. -/
def tabStr : Table := { bbox := some ⟨2, 0, 12, 10⟩, flavor := "stream" }

/-- A lattice detection at `[0,0,10,10]` for the IOU-0.8 tie-break pair. -/
def tab08Lat : Table := { bbox := some ⟨0, 0, 10, 10⟩, flavor := "lattice" }

/-- A stream detection at `[0,0,10,8]`: IOU with `tab08Lat` is `80/100 = 0.8`. -/
def tab08Str : Table := { bbox := some ⟨0, 0, 10, 8⟩, flavor := "stream" }

/-- The header-split scenario grid of the spec (§8): 2 header-like rows,
5 numeric body rows, 1 row repeating the header tokens, 3 numeric rows. -/
def scenarioDf : List (List String) :=
  [["Item", "Three Months Ended", "Notes", "Year"],
   ["Description", "Q1", "Q2", "Change"],
   ["alpha", "1", "2", "3"],
   ["beta", "4", "5", "6"],
   ["gamma", "7", "8", "9"],
   ["delta", "10", "11", "12"],
   ["epsilon", "13", "14", "15"],
   ["Item", "Three Months Ended", "Notes", "Year"],
   ["zeta", "16", "17", "18"],
   ["eta", "19", "20", "21"],
   ["theta", "22", "23", "24"]]

/-- Cell geometry for the scenario: an 11×4 grid with uniform row pitch, so
no gap exceeds `median * 1.6` (no large geometric gap). Row `i`, column `j`
occupies `[10j, 10j+10] × [200-10i, 210-10i]`. -/
def scenarioCells : List Cell :=
  [{ row := 0, col := 0, x1 := 0, y1 := 200, x2 := 10, y2 := 210 },
   { row := 0, col := 1, x1 := 10, y1 := 200, x2 := 20, y2 := 210 },
   { row := 0, col := 2, x1 := 20, y1 := 200, x2 := 30, y2 := 210 },
   { row := 0, col := 3, x1 := 30, y1 := 200, x2 := 40, y2 := 210 },
   { row := 1, col := 0, x1 := 0, y1 := 190, x2 := 10, y2 := 200 },
   { row := 1, col := 1, x1 := 10, y1 := 190, x2 := 20, y2 := 200 },
   { row := 1, col := 2, x1 := 20, y1 := 190, x2 := 30, y2 := 200 },
   { row := 1, col := 3, x1 := 30, y1 := 190, x2 := 40, y2 := 200 },
   { row := 2, col := 0, x1 := 0, y1 := 180, x2 := 10, y2 := 190 },
   { row := 2, col := 1, x1 := 10, y1 := 180, x2 := 20, y2 := 190 },
   { row := 2, col := 2, x1 := 20, y1 := 180, x2 := 30, y2 := 190 },
   { row := 2, col := 3, x1 := 30, y1 := 180, x2 := 40, y2 := 190 },
   { row := 3, col := 0, x1 := 0, y1 := 170, x2 := 10, y2 := 180 },
   { row := 3, col := 1, x1 := 10, y1 := 170, x2 := 20, y2 := 180 },
   { row := 3, col := 2, x1 := 20, y1 := 170, x2 := 30, y2 := 180 },
   { row := 3, col := 3, x1 := 30, y1 := 170, x2 := 40, y2 := 180 },
   { row := 4, col := 0, x1 := 0, y1 := 160, x2 := 10, y2 := 170 },
   { row := 4, col := 1, x1 := 10, y1 := 160, x2 := 20, y2 := 170 },
   { row := 4, col := 2, x1 := 20, y1 := 160, x2 := 30, y2 := 170 },
   { row := 4, col := 3, x1 := 30, y1 := 160, x2 := 40, y2 := 170 },
   { row := 5, col := 0, x1 := 0, y1 := 150, x2 := 10, y2 := 160 },
   { row := 5, col := 1, x1 := 10, y1 := 150, x2 := 20, y2 := 160 },
   { row := 5, col := 2, x1 := 20, y1 := 150, x2 := 30, y2 := 160 },
   { row := 5, col := 3, x1 := 30, y1 := 150, x2 := 40, y2 := 160 },
   { row := 6, col := 0, x1 := 0, y1 := 140, x2 := 10, y2 := 150 },
   { row := 6, col := 1, x1 := 10, y1 := 140, x2 := 20, y2 := 150 },
   { row := 6, col := 2, x1 := 20, y1 := 140, x2 := 30, y2 := 150 },
   { row := 6, col := 3, x1 := 30, y1 := 140, x2 := 40, y2 := 150 },
   { row := 7, col := 0, x1 := 0, y1 := 130, x2 := 10, y2 := 140 },
   { row := 7, col := 1, x1 := 10, y1 := 130, x2 := 20, y2 := 140 },
   { row := 7, col := 2, x1 := 20, y1 := 130, x2 := 30, y2 := 140 },
   { row := 7, col := 3, x1 := 30, y1 := 130, x2 := 40, y2 := 140 },
   { row := 8, col := 0, x1 := 0, y1 := 120, x2 := 10, y2 := 130 },
   { row := 8, col := 1, x1 := 10, y1 := 120, x2 := 20, y2 := 130 },
   { row := 8, col := 2, x1 := 20, y1 := 120, x2 := 30, y2 := 130 },
   { row := 8, col := 3, x1 := 30, y1 := 120, x2 := 40, y2 := 130 },
   { row := 9, col := 0, x1 := 0, y1 := 110, x2 := 10, y2 := 120 },
   { row := 9, col := 1, x1 := 10, y1 := 110, x2 := 20, y2 := 120 },
   { row := 9, col := 2, x1 := 20, y1 := 110, x2 := 30, y2 := 120 },
   { row := 9, col := 3, x1 := 30, y1 := 110, x2 := 40, y2 := 120 },
   { row := 10, col := 0, x1 := 0, y1 := 100, x2 := 10, y2 := 110 },
   { row := 10, col := 1, x1 := 10, y1 := 100, x2 := 20, y2 := 110 },
   { row := 10, col := 2, x1 := 20, y1 := 100, x2 := 30, y2 := 110 },
   { row := 10, col := 3, x1 := 30, y1 := 100, x2 := 40, y2 := 110 }]

/-- The scenario detection, with cell geometry. -/
def scenarioTable : Table :=
  { bbox := some ⟨0, 90, 40, 210⟩, flavor := "lattice",
    df := some scenarioDf, cells := some scenarioCells }

/-- The scenario table element handed to the post-processor. -/
def scenarioElem : PdfElement :=
  { type := ElementType.table, page := 1,
    rows := some (scenarioDf.map (fun r => r.map some)),
    bbox := some ⟨0, 90, 40, 210⟩,
    meta := { camelotTable := some scenarioTable } }

/-- The scenario page mapping fed to the public `process`. -/
def scenarioPages : List (Int × List PdfElement) := [(1, [scenarioElem])]

/-- The body frame `_collapse_header` produces on the scenario: the rows
below the detected two-row header block, keyed by their original labels. -/
def scenarioBody : List (Nat × List String) :=
  [(2, ["alpha", "1", "2", "3"]),
   (3, ["beta", "4", "5", "6"]),
   (4, ["gamma", "7", "8", "9"]),
   (5, ["delta", "10", "11", "12"]),
   (6, ["epsilon", "13", "14", "15"]),
   (7, ["Item", "Three Months Ended", "Notes", "Year"]),
   (8, ["zeta", "16", "17", "18"]),
   (9, ["eta", "19", "20", "21"]),
   (10, ["theta", "22", "23", "24"])]

/-- The collapsed header of the scenario grid. -/
def scenarioHeader : List String :=
  ["Item Description", "Three Months Ended Q1", "Notes Q2", "Year Change"]

/-- Per-row numeric ratios of the scenario grid. -/
def scenarioNr : List ℚ := [0, 0, 3/4, 3/4, 3/4, 3/4, 3/4, 0, 3/4, 3/4, 3/4]

/-- Per-row non-empty ratios of the scenario grid. -/
def scenarioNer : List ℚ := [1, 1, 1, 1, 1, 1, 1, 1, 1, 1, 1]

/-- Per-row header hints of the scenario grid. -/
def scenarioHh : List Bool :=
  [true, false, false, false, false, false, false, true, false, false, false]

/-- Per-row header scores of the scenario grid. -/
def scenarioHs : List ℚ := [23/20, 1, 1/4, 1/4, 1/4, 1/4, 1/4, 23/20, 1/4, 1/4, 1/4]

/-- The single chunk `_slice_chunks` cuts from the scenario body: slicing
starts at the full-table position 2 inside the 9-row body frame, so body
rows `alpha` and `beta` (labels 2 and 3) are dropped. -/
def scenarioChunk : List (Nat × List String) :=
  [(4, ["gamma", "7", "8", "9"]),
   (5, ["delta", "10", "11", "12"]),
   (6, ["epsilon", "13", "14", "15"]),
   (7, ["Item", "Three Months Ended", "Notes", "Year"]),
   (8, ["zeta", "16", "17", "18"]),
   (9, ["eta", "19", "20", "21"]),
   (10, ["theta", "22", "23", "24"])]

/-- The one element `_process_one` produces on the scenario: collapsed
header plus the seven surviving body rows (the reheader row is kept as an
ordinary data row, so no split happens). -/
def scenarioOutElem : PdfElement :=
  { type := ElementType.table, page := 1,
    rows := some ((scenarioHeader.map some) :: scenarioChunk.map (fun pr => pr.2.map some)),
    bbox := some ⟨0, 100, 40, 170⟩,
    meta := { camelotTable := some scenarioTable, header := some scenarioHeader } }

/-- A table element whose detection carries no cell geometry. -/
def elemNoGeom : PdfElement :=
  { type := ElementType.table, page := 1,
    rows := some [[some "a", some "b"]],
    bbox := some ⟨0, 0, 10, 10⟩,
    meta := { camelotTable := some { bbox := some ⟨0, 0, 10, 10⟩, flavor := "lattice",
                                     df := some [["a", "b"]], cells := none } } }

/-- Element with bbox `(0,100,10,120)` (the smaller left edge). -/
def elLeft : PdfElement :=
  { type := ElementType.text, page := 1, content := some "left",
    bbox := some ⟨0, 100, 10, 120⟩ }

/-- Element with bbox `(50,100,60,120)` (equal top, larger left edge). -/
def elRight : PdfElement :=
  { type := ElementType.text, page := 1, content := some "right",
    bbox := some ⟨50, 100, 60, 120⟩ }

/-- Extracted elements with one page holding `elRight` before `elLeft`. -/
def exC7 : ExtractedElements := { text := some [(1, [elRight, elLeft])] }

/-- Two bboxless text elements for the ordinal witness. -/
def elPlainA : PdfElement := { type := ElementType.text, page := 1, content := some "a" }

/-- Second bboxless text element. -/
def elPlainB : PdfElement := { type := ElementType.text, page := 1, content := some "b" }

/-- Extracted elements with one page of two bboxless text elements. -/
def exC6 : ExtractedElements := { text := some [(1, [elPlainA, elPlainB])] }

/-- A table element one of whose rows holds a `None` (blank) cell. -/
def badTableElem : PdfElement :=
  { type := ElementType.table, page := 1,
    rows := some [[some "a", none]],
    bbox := some ⟨0, 0, 10, 10⟩ }

/-- A text line at top 0 with bbox bottom 10. -/
def lineA : PdfElement :=
  { type := ElementType.text, page := 1, content := some "first line",
    bbox := some ⟨0, 0, 50, 10⟩, fontSize := some 12, fontName := some "F" }

/-- A line 4 units below `lineA` with the same style (merges). -/
def lineB : PdfElement :=
  { type := ElementType.text, page := 1, content := some "second line",
    bbox := some ⟨0, 14, 50, 24⟩, fontSize := some 12, fontName := some "F" }

/-- A line 20 units below `lineB` (starts a fresh block). -/
def lineC : PdfElement :=
  { type := ElementType.text, page := 1, content := some "third line",
    bbox := some ⟨0, 44, 50, 54⟩, fontSize := some 12, fontName := some "F" }

/-! ### Shared helper lemmas -/

/-- `iou` is symmetric in its two arguments. -/
theorem iou_comm (b1 b2 : Option BBox) : iou b1 b2 = iou b2 b1 := by
  cases b1 with
  | none => cases b2 <;> rfl
  | some c =>
    cases b2 with
    | none => rfl
    | some d =>
      simp only [iou]
      rw [max_comm c.x0 d.x0, max_comm c.y0 d.y0, min_comm c.x1 d.x1,
        min_comm c.y1 d.y1, add_comm ((c.x1 - c.x0) * (c.y1 - c.y0))]

/-- `iou` of two boxes with an empty geometric intersection is `0`. -/
theorem iou_of_disjoint (c d : BBox)
    (h : min c.x1 d.x1 ≤ max c.x0 d.x0 ∨ min c.y1 d.y1 ≤ max c.y0 d.y0) :
    iou (some c) (some d) = 0 := by
  simp only [iou]
  have hz : max 0 (min c.x1 d.x1 - max c.x0 d.x0) * max 0 (min c.y1 d.y1 - max c.y0 d.y0) = 0 := by
    rcases h with h | h
    · rw [max_eq_left (by linarith : min c.x1 d.x1 - max c.x0 d.x0 ≤ 0), zero_mul]
    · rw [max_eq_left (by linarith : min c.y1 d.y1 - max c.y0 d.y0 ≤ 0), mul_zero]
  rw [hz]
  split <;> simp

/-- `findIdx?` finds `i` when `i` is the first index whose element satisfies
the predicate. -/
theorem findIdx?_eq_some_of_first {α : Type} (p : α → Bool) :
    ∀ (l : List α) (i : Nat) (hi : i < l.length),
      (∀ j (hj : j < i), p (l.get ⟨j, hj.trans hi⟩) = false) →
      p (l.get ⟨i, hi⟩) = true → l.findIdx? p = some i := by
  intro l
  induction l with
  | nil => intro i hi _ _; exact absurd hi (Nat.not_lt_zero i)
  | cons a rest ih =>
    intro i hi hbefore hp
    cases i with
    | zero =>
      have hp' : p a = true := hp
      simp [List.findIdx?_cons, hp']
    | succ j =>
      have ha : p a = false := hbefore 0 (Nat.succ_pos j)
      have hrec := ih j (Nat.lt_of_succ_lt_succ hi)
        (fun k hk => hbefore (k + 1) (Nat.succ_lt_succ hk))
        hp
      simp [List.findIdx?_cons, ha, List.findIdx?_succ, hrec]

/-- Case equation: a candidate without bbox is skipped. -/
theorem dedupeStep_of_bbox_none {thr : ℚ} {acc : List Table} {t : Table}
    (hb : t.bbox = none) : dedupeStep thr acc t = acc := by
  simp only [dedupeStep, hb]

/-- Case equation: a candidate overlapping no kept detection is appended. -/
theorem dedupeStep_of_no_overlap {thr : ℚ} {acc : List Table} {t : Table} {b : BBox}
    (hb : t.bbox = some b)
    (hfi : acc.findIdx? (fun u => decide (thr < iou t.bbox u.bbox)) = none) :
    dedupeStep thr acc t = acc ++ [t] := by
  unfold dedupeStep
  rw [hb] at hfi ⊢
  simp only [hfi]

/-- Case equation: a candidate whose first overlap is the kept detection at
index `i` replaces it exactly under the stream-over-lattice rule. -/
theorem dedupeStep_of_overlap {thr : ℚ} {acc : List Table} {t : Table} {b : BBox} {i : Nat}
    (hb : t.bbox = some b)
    (hfi : acc.findIdx? (fun u => decide (thr < iou t.bbox u.bbox)) = some i) :
    dedupeStep thr acc t =
      if t.flavor = "stream" ∧ (acc.getD i t).flavor = "lattice"
      then acc.set i t else acc := by
  unfold dedupeStep
  rw [hb] at hfi ⊢
  simp only [hfi]

theorem dedupeStep_inv {thr : ℚ} {acc : List Table} {t : Table}
    (ht : t.flavor ≠ "stream") (h : dedupInv thr acc) :
    dedupInv thr (dedupeStep thr acc t) := by
  cases hb : t.bbox with
  | none =>
    rw [dedupeStep_of_bbox_none hb]
    exact h
  | some b =>
    cases hfi : acc.findIdx? (fun u => decide (thr < iou t.bbox u.bbox)) with
    | none =>
      have hall : ∀ u ∈ acc, iou u.bbox t.bbox ≤ thr := by
        intro u hu
        have := (List.findIdx?_eq_none_iff.mp hfi) u hu
        rw [iou_comm]
        exact le_of_not_lt (by simpa using this)
      rw [dedupeStep_of_no_overlap hb hfi]
      constructor
      · exact List.pairwise_append.mpr ⟨h.1, List.pairwise_singleton _ _,
          fun a ha c hc' => by
            rw [List.mem_singleton] at hc'
            subst hc'
            exact hall a ha⟩
      · intro a ha
        rcases List.mem_append.mp ha with ha | ha
        · exact h.2 a ha
        · rw [List.mem_singleton] at ha
          subst ha
          simp [hb]
    | some i =>
      rw [dedupeStep_of_overlap hb hfi, if_neg (fun hc => ht hc.1)]
      exact h

/-- The whole dedup fold preserves the invariant when no candidate has
stream flavor. -/
theorem dedupe_foldl_inv {thr : ℚ} :
    ∀ (l acc : List Table), (∀ t ∈ l, t.flavor ≠ "stream") → dedupInv thr acc →
      dedupInv thr (l.foldl (dedupeStep thr) acc)
  | [], _, _, h => h
  | t :: rest, acc, hl, h => by
    rw [List.foldl_cons]
    exact dedupe_foldl_inv rest _ (fun u hu => hl u (List.mem_cons_of_mem t hu))
      (dedupeStep_inv (hl t (List.mem_cons_self t rest)) h)

/-- On an accumulator-plus-input satisfying the invariant, the dedup fold
just appends every candidate. -/
theorem dedupe_foldl_of_inv {thr : ℚ} :
    ∀ (l acc : List Table), (∀ a ∈ acc ++ l, a.bbox.isSome = true) →
      (acc ++ l).Pairwise (fun a b => iou a.bbox b.bbox ≤ thr) →
      l.foldl (dedupeStep thr) acc = acc ++ l
  | [], acc, _, _ => by simp
  | t :: rest, acc, hsome, hpw => by
    rw [List.foldl_cons]
    have hb : t.bbox.isSome = true := hsome t (by simp)
    obtain ⟨b, hb⟩ := Option.isSome_iff_exists.mp hb
    have hnone : acc.findIdx? (fun u => decide (thr < iou t.bbox u.bbox)) = none := by
      rw [List.findIdx?_eq_none_iff]
      intro u hu
      have hle : iou u.bbox t.bbox ≤ thr := by
        have := List.pairwise_append.mp hpw
        exact this.2.2 u hu t (by simp)
      simp only [decide_eq_false_iff_not, not_lt]
      rw [iou_comm]
      exact hle
    rw [dedupeStep_of_no_overlap hb hnone, dedupe_foldl_of_inv rest (acc ++ [t])
      (by simpa using hsome) (by simpa using hpw)]
    simp

/-- Assigning `order := position` while building a page yields exactly the
ordinals `0, …, n-1` in order. -/
theorem mapIdx_order_eq_range (l : List PdfElement) :
    ((l.mapIdx fun i el => { el with order := (i : Int) }).map PdfElement.order) =
      (List.range l.length).map Int.ofNat := by
  rw [List.mapIdx_eq_enum_map, List.map_map, ← List.enum_map_fst l, List.map_map]
  rfl

/-- A bboxless element is `keyLE`-above every element, so in a sorted list
everything after a bboxless element is bboxless too; the sorted list is the
bboxed part followed by the bboxless part. -/
theorem sorted_filter_append (s : List PdfElement) (hs : s.Pairwise elemLE) :
    s = s.filter (fun e => e.bbox.isSome) ++ s.filter (fun e => e.bbox.isNone) := by
  induction s with
  | nil => rfl
  | cons e rest ih =>
    rw [List.pairwise_cons] at hs
    cases hbb : e.bbox with
    | some b =>
      have h1 : (e :: rest).filter (fun e => e.bbox.isSome) =
          e :: rest.filter (fun e => e.bbox.isSome) := by
        rw [List.filter_cons_of_pos (by simp [hbb])]
      have h2 : (e :: rest).filter (fun e => e.bbox.isNone) =
          rest.filter (fun e => e.bbox.isNone) := by
        rw [List.filter_cons_of_neg (by simp [hbb])]
      rw [h1, h2, List.cons_append, ← ih hs.2]
    | none =>
      have hall : ∀ b ∈ rest, b.bbox = none := by
        intro b hb
        have hle : elemLE e b := hs.1 b hb
        unfold elemLE keyLE at hle
        revert hle
        cases hsb : sortKey b with
        | none =>
          intro _
          simpa [sortKey] using hsb
        | some q =>
          simp [sortKey, hbb]
      have h1 : (e :: rest).filter (fun e => e.bbox.isSome) = [] := by
        rw [List.filter_eq_nil_iff]
        intro a ha
        rcases List.mem_cons.mp ha with rfl | ha
        · simp [hbb]
        · simp [hall a ha]
      have h2 : (e :: rest).filter (fun e => e.bbox.isNone) = e :: rest := by
        rw [List.filter_eq_self]
        intro a ha
        rcases List.mem_cons.mp ha with rfl | ha
        · simp [hbb]
        · simp [hall a ha]
      rw [h1, h2, List.nil_append]

/-- Stability of the reading-order sort on the bboxless elements: they come
out in input order. -/
theorem sortElements_filter_isNone (l : List PdfElement) :
    (sortElements l).filter (fun e => e.bbox.isNone) =
      l.filter (fun e => e.bbox.isNone) := by
  have hpw : (l.filter (fun e => e.bbox.isNone)).Pairwise elemLE := by
    have hall : ∀ x ∈ l.filter (fun e => e.bbox.isNone), x.bbox = none := by
      intro x hx
      have := List.of_mem_filter hx
      simpa [Option.isNone_iff_eq_none] using this
    have : ∀ (c : List PdfElement), (∀ x ∈ c, x.bbox = none) → c.Pairwise elemLE := by
      intro c
      induction c with
      | nil => intro _; exact List.Pairwise.nil
      | cons a rest ih =>
        intro hc
        rw [List.pairwise_cons]
        refine ⟨fun b hb => ?_, ih (fun x hx => hc x (List.mem_cons_of_mem a hx))⟩
        show keyLE (sortKey a) (sortKey b)
        rw [show sortKey a = none by simp [sortKey, hc a (List.mem_cons_self a rest)],
          show sortKey b = none by simp [sortKey, hc b (List.mem_cons_of_mem a hb)]]
        trivial
    exact this _ hall
  have hsub : List.Sublist (l.filter (fun e => e.bbox.isNone)) (sortElements l) :=
    List.sublist_insertionSort hpw (List.filter_sublist l)
  have hsub2 : List.Sublist (l.filter (fun e => e.bbox.isNone))
      ((sortElements l).filter (fun e => e.bbox.isNone)) := by
    have h2 := List.Sublist.filter (fun e => e.bbox.isNone) hsub
    simpa [List.filter_filter] using h2
  have hperm : List.Perm ((sortElements l).filter (fun e => e.bbox.isNone))
      (l.filter (fun e => e.bbox.isNone)) :=
    List.Perm.filter _ (List.perm_insertionSort elemLE l)
  exact (hsub2.eq_of_length hperm.length_eq.symm).symm

/-- `specChunks` on a nonempty list starts with a chunk led by the first
line. -/
theorem specChunks_cons (p : PdfElement → PdfElement → Bool) :
    ∀ (x : PdfElement) (xs : List PdfElement),
      ∃ c cs, TextExtractor.specChunks p (x :: xs) = (x :: c) :: cs
  | _, [] => ⟨[], [], rfl⟩
  | x, y :: ys => by
    obtain ⟨c, cs, h⟩ := specChunks_cons p y ys
    by_cases hp : p x y
    · exact ⟨y :: c, cs, by simp only [TextExtractor.specChunks, h, if_pos hp]⟩
    · exact ⟨[], (y :: c) :: cs, by simp only [TextExtractor.specChunks, h, if_neg hp]⟩

/-- The loop of `_group_lines_into_blocks` computes the spec-side chunking,
relative to an accumulated current block and accumulated blocks, when every
line has a bbox. -/
theorem blocksGo_eq (yGap : ℚ) :
    ∀ (xs : List PdfElement) (prev : PdfElement) (cur : List PdfElement)
      (blocks : List (List PdfElement)),
      (∀ l ∈ prev :: xs, l.bbox.isSome = true) → cur ≠ [] →
      ∀ c cs,
        TextExtractor.specChunks (TextExtractor.lineMergeCond yGap) (prev :: xs) =
          (prev :: c) :: cs →
        TextExtractor.blocksGo yGap ((prev :: xs).zip xs) cur blocks =
          blocks ++ (cur ++ c) :: cs
  | [], prev, cur, blocks, _, hcur, c, cs, hs => by
    have : TextExtractor.specChunks (TextExtractor.lineMergeCond yGap) [prev] =
        [[prev]] := rfl
    rw [this] at hs
    obtain ⟨h1, h2⟩ := List.cons_eq_cons.mp hs
    have hc' : c = [] := ((List.cons_eq_cons.mp h1).2).symm
    have hcs : cs = [] := h2.symm
    subst hc' hcs
    show TextExtractor.blocksGo yGap [] cur blocks = blocks ++ [cur ++ []]
    simp [TextExtractor.blocksGo, hcur]
  | y :: ys, prev, cur, blocks, hbb, hcur, c, cs, hs => by
    obtain ⟨c', cs', hs'⟩ := specChunks_cons (TextExtractor.lineMergeCond yGap) y ys
    have hzip : (prev :: y :: ys).zip (y :: ys) = (prev, y) :: (y :: ys).zip ys := rfl
    have hbp : prev.bbox.isSome = true := hbb prev (by simp)
    have hby : y.bbox.isSome = true := hbb y (by simp)
    rw [hzip]
    show TextExtractor.blocksGo yGap ((prev, y) :: (y :: ys).zip ys) cur blocks = _
    have hguard : (!(prev.bbox.isSome && y.bbox.isSome)) = false := by
      rw [hbp, hby]
      rfl
    by_cases hp : TextExtractor.lineMergeCond yGap prev y = true
    · have heq : TextExtractor.specChunks (TextExtractor.lineMergeCond yGap)
          (prev :: y :: ys) = (prev :: y :: c') :: cs' := by
        simp only [TextExtractor.specChunks, hs', if_pos hp]
      rw [heq] at hs
      obtain ⟨h1, h2⟩ := List.cons_eq_cons.mp hs
      have hc : c = y :: c' := ((List.cons_eq_cons.mp h1).2).symm
      have hcs : cs = cs' := h2.symm
      subst hc hcs
      have hstep : TextExtractor.blocksGo yGap ((prev, y) :: (y :: ys).zip ys) cur blocks =
          TextExtractor.blocksGo yGap ((y :: ys).zip ys) (cur ++ [y]) blocks := by
        simp only [TextExtractor.blocksGo, hguard, Bool.false_eq_true, if_false, hp, if_true]
      rw [hstep, blocksGo_eq yGap ys y (cur ++ [y]) blocks
        (fun l hl => hbb l (List.mem_cons_of_mem prev hl)) (by simp) c' cs hs']
      simp
    · have heq : TextExtractor.specChunks (TextExtractor.lineMergeCond yGap)
          (prev :: y :: ys) = [prev] :: (y :: c') :: cs' := by
        simp only [TextExtractor.specChunks, hs', if_neg hp]
      rw [heq] at hs
      obtain ⟨h1, h2⟩ := List.cons_eq_cons.mp hs
      have hc : c = [] := ((List.cons_eq_cons.mp h1).2).symm
      have hcs : cs = (y :: c') :: cs' := h2.symm
      subst hc hcs
      have hstep : TextExtractor.blocksGo yGap ((prev, y) :: (y :: ys).zip ys) cur blocks =
          TextExtractor.blocksGo yGap ((y :: ys).zip ys) [y] (blocks ++ [cur]) := by
        simp only [TextExtractor.blocksGo, hguard, Bool.false_eq_true, if_false, hp, if_false]
      rw [hstep, blocksGo_eq yGap ys y [y] (blocks ++ [cur])
        (fun l hl => hbb l (List.mem_cons_of_mem prev hl)) (by simp) c' cs' hs']
      simp

/-- The grouping phase equals the spec-side chunking on bboxed lines. -/
theorem groupBlocks_eq_specChunks (yGap : ℚ) (lines : List PdfElement)
    (h : ∀ l ∈ lines, l.bbox.isSome = true) :
    TextExtractor.groupBlocks yGap lines =
      TextExtractor.specChunks (TextExtractor.lineMergeCond yGap) lines := by
  cases lines with
  | nil => rfl
  | cons x xs =>
    obtain ⟨c, cs, hs⟩ := specChunks_cons (TextExtractor.lineMergeCond yGap) x xs
    rw [hs]
    show TextExtractor.blocksGo yGap ((x :: xs).zip xs) [x] [] = _
    rw [blocksGo_eq yGap xs x [x] [] h (by simp) c cs hs]
    simp

/-- Every chunk produced by `specChunks` is nonempty and made of input
lines. -/
theorem specChunks_sound (p : PdfElement → PdfElement → Bool) :
    ∀ (ls : List PdfElement), ∀ c ∈ TextExtractor.specChunks p ls,
      c ≠ [] ∧ ∀ e ∈ c, e ∈ ls
  | [], c, hc => absurd hc (by simp [TextExtractor.specChunks])
  | [x], c, hc => by
    have : c = [x] := by simpa [TextExtractor.specChunks] using hc
    subst this
    exact ⟨by simp, by simp⟩
  | x :: y :: rest, c, hc => by
    obtain ⟨c', cs', hs'⟩ := specChunks_cons p y rest
    by_cases hp : p x y
    · rw [show TextExtractor.specChunks p (x :: y :: rest) = (x :: y :: c') :: cs' from by
        simp only [TextExtractor.specChunks, hs', if_pos hp]] at hc
      rcases List.mem_cons.mp hc with rfl | hc
      · refine ⟨by simp, fun e he => ?_⟩
        rcases List.mem_cons.mp he with rfl | he
        · simp
        · have := (specChunks_sound p (y :: rest) (y :: c') (by rw [hs']; simp)).2 e
            (by simpa using he)
          exact List.mem_cons_of_mem x this
      · have hsub := specChunks_sound p (y :: rest) c (by rw [hs']; exact List.mem_cons_of_mem _ hc)
        exact ⟨hsub.1, fun e he => List.mem_cons_of_mem x (hsub.2 e he)⟩
    · rw [show TextExtractor.specChunks p (x :: y :: rest) = [x] :: (y :: c') :: cs' from by
        simp only [TextExtractor.specChunks, hs', if_neg hp]] at hc
      rcases List.mem_cons.mp hc with rfl | hc
      · exact ⟨by simp, by simp⟩
      · have hsub := specChunks_sound p (y :: rest) c (by rw [hs']; exact hc)
        exact ⟨hsub.1, fun e he => List.mem_cons_of_mem x (hsub.2 e he)⟩

/-- A nonempty block of bboxed lines merges successfully. -/
theorem mergeBlock_isSome (c : List PdfElement) (hne : c ≠ [])
    (hbb : ∀ e ∈ c, e.bbox.isSome = true) :
    ∃ el, TextExtractor.mergeBlock c = some el := by
  cases c with
  | nil => exact absurd rfl hne
  | cons base rest =>
    obtain ⟨b, hb⟩ := Option.isSome_iff_exists.mp (hbb base (by simp))
    have hfm : (base :: rest).filterMap PdfElement.bbox =
        b :: rest.filterMap PdfElement.bbox :=
      List.filterMap_cons_some hb
    have hsome : (TextExtractor.mergeBlock (base :: rest)).isSome = true := by
      simp only [TextExtractor.mergeBlock, hfm, Option.isSome_some]
    exact Option.isSome_iff_exists.mp hsome

/-- `mapM` over blocks that all merge yields that many elements. -/
theorem mapM_mergeBlock_isSome :
    ∀ (l : List (List PdfElement)),
      (∀ c ∈ l, ∃ el, TextExtractor.mergeBlock c = some el) →
      ∃ els, l.mapM TextExtractor.mergeBlock = some els ∧ els.length = l.length
  | [], _ => ⟨[], rfl, rfl⟩
  | c :: rest, h => by
    obtain ⟨el, hel⟩ := h c (by simp)
    obtain ⟨els, hels, hlen⟩ := mapM_mergeBlock_isSome rest
      (fun d hd => h d (List.mem_cons_of_mem c hd))
    exact ⟨el :: els, by rw [List.mapM_cons, hel, hels]; rfl, by simp [hlen]⟩

/-- `mapM` over `Option` fails exactly when one element fails. -/
theorem mapM_eq_none_iff {α β : Type} (f : α → Option β) (l : List α) :
    l.mapM f = none ↔ ∃ x ∈ l, f x = none := by
  rw [← List.mapM'_eq_mapM]
  induction l with
  | nil => simp [List.mapM']
  | cons a rest ih =>
    cases hfa : f a with
    | none =>
      refine iff_of_true ?_ ⟨a, by simp, hfa⟩
      simp [List.mapM', hfa]
    | some b =>
      cases hrest : List.mapM' f rest with
      | none =>
        obtain ⟨x, hx, hfx⟩ := ih.mp hrest
        refine iff_of_true ?_ ⟨x, List.mem_cons_of_mem a hx, hfx⟩
        simp [List.mapM', hfa, hrest]
      | some bs =>
        refine iff_of_false ?_ ?_
        · simp [List.mapM', hfa, hrest]
        · rintro ⟨x, hx, hfx⟩
          rcases List.mem_cons.mp hx with rfl | hx
          · rw [hfa] at hfx
            exact Option.noConfusion hfx
          · have hc := ih.mpr ⟨x, hx, hfx⟩
            rw [hrest] at hc
            exact Option.noConfusion hc

/-- Joining one table row raises exactly when the row holds a `None` cell. -/
theorem joinTableRow_eq_none_iff (r : List (Option String)) :
    joinTableRow r = none ↔ none ∈ r := by
  unfold joinTableRow
  rw [Option.map_eq_none', mapM_eq_none_iff]
  constructor
  · rintro ⟨x, hx, hfx⟩
    rwa [show x = none from hfx] at hx
  · intro h
    exact ⟨none, h, rfl⟩

/-- An element contributes no lines (raises) during flattening with tables
included and images excluded exactly when it is a table whose nonempty rows
hold a `None` cell. -/
theorem elementLines_eq_none_iff (el : PdfElement) :
    elementLines true false el = none ↔
      (el.type = ElementType.table ∧
        ∃ rows, el.rows = some rows ∧ rows ≠ [] ∧ ∃ r ∈ rows, none ∈ r) := by
  cases htype : el.type with
  | text => simp [elementLines, htype]
  | image => simp [elementLines, htype]
  | figure => simp [elementLines, htype]
  | table =>
    cases hrows : el.rows with
    | none =>
      cases hcontent : el.content with
      | none => simp [elementLines, htype, hrows, hcontent]
      | some c =>
        by_cases hc : c = "" <;> simp [elementLines, htype, hrows, hcontent, hc]
    | some rows =>
      by_cases hempty : rows = []
      · subst hempty
        cases hcontent : el.content with
        | none => simp [elementLines, htype, hrows, hcontent]
        | some c =>
          by_cases hc : c = "" <;> simp [elementLines, htype, hrows, hcontent, hc]
      · have hmain : elementLines true false el =
            (rows.mapM joinTableRow).map (fun rs => [String.intercalate "\n" rs]) := by
          simp [elementLines, htype, hrows, hempty]
        rw [hmain, Option.map_eq_none', mapM_eq_none_iff]
        constructor
        · rintro ⟨r, hr, hjr⟩
          exact ⟨rfl, rows, rfl, hempty, r, hr, (joinTableRow_eq_none_iff r).mp hjr⟩
        · rintro ⟨_, rows', hrows', hne', r, hr, hcell⟩
          have heq : rows' = rows := (Option.some_injective _ hrows').symm
          subst heq
          exact ⟨r, hr, (joinTableRow_eq_none_iff r).mpr hcell⟩

/-- The flattening loop raises exactly when one element raises. -/
theorem collectLines_eq_none_iff (it ii : Bool) :
    ∀ (l : List PdfElement),
      collectLines it ii l = none ↔ ∃ el ∈ l, elementLines it ii el = none
  | [] => by simp [collectLines]
  | el :: rest => by
    cases hel : elementLines it ii el with
    | none =>
      refine iff_of_true ?_ ⟨el, by simp, hel⟩
      simp [collectLines, hel]
    | some a =>
      cases hrest : collectLines it ii rest with
      | none =>
        obtain ⟨x, hx, hfx⟩ := (collectLines_eq_none_iff it ii rest).mp hrest
        refine iff_of_true ?_ ⟨x, List.mem_cons_of_mem el hx, hfx⟩
        simp [collectLines, hel, hrest]
      | some b =>
        refine iff_of_false ?_ ?_
        · simp [collectLines, hel, hrest]
        · rintro ⟨x, hx, hfx⟩
          rcases List.mem_cons.mp hx with rfl | hx
          · rw [hel] at hfx
            exact Option.noConfusion hfx
          · have hc := (collectLines_eq_none_iff it ii rest).mpr ⟨x, hx, hfx⟩
            rw [hrest] at hc
            exact Option.noConfusion hc

/-! ### The internal pipeline evaluated on the scenario -/

theorem except_bind_ok {ε α β : Type} (a : α) (f : α → Except ε β) :
    (Except.ok a : Except ε α) >>= f = f a := rfl

theorem except_map_ok {ε α β : Type} (f : α → β) (a : α) :
    Except.map f (Except.ok a : Except ε α) = Except.ok (f a) := rfl

theorem except_pure_eq_ok {ε α : Type} (a : α) :
    (pure a : Except ε α) = Except.ok a := rfl

theorem jaccard_eq_zero_of_disjoint (a b : Finset String) (h : a ∩ b = ∅) :
    jaccard a b = 0 := by
  simp [jaccard, h]

theorem toFinset_inter_empty (l1 l2 : List String) (h : ∀ x ∈ l1, x ∉ l2) :
    l1.toFinset ∩ l2.toFinset = ∅ := by
  rw [Finset.eq_empty_iff_forall_not_mem]
  intro x hx
  rw [Finset.mem_inter, List.mem_toFinset, List.mem_toFinset] at hx
  exact h x hx.1 hx.2

theorem map_ratioCount (p : String → Bool) :
    ∀ (df : List (List String)) (counts lens : List Nat),
      df.map (fun r => r.countP p) = counts → df.map List.length = lens →
      df.map (TablePostprocessor.ratioCount p) =
        List.zipWith (fun c l => (c : ℚ) / (l : ℚ)) counts lens
  | [], _, _, h1, h2 => by subst h1 h2; rfl
  | r :: rest, _, _, h1, h2 => by
    subst h1 h2
    simp only [List.map_cons, List.zipWith_cons_cons]
    exact List.cons_eq_cons.mpr ⟨rfl, map_ratioCount p rest _ _ rfl rfl⟩

theorem map_mean (l : List Nat) (vals : List (List ℚ))
    (h : l.map (fun k => (scenarioCells.filter (fun c => c.row = k)).map Cell.y1) = vals) :
    l.map (fun k =>
      let ys := (scenarioCells.filter (fun c => c.row = k)).map Cell.y1
      ys.sum / (ys.length : ℚ)) =
    vals.map (fun ys => ys.sum / (ys.length : ℚ)) := by
  subst h
  rw [List.map_map]
  rfl

theorem scenario_nr :
    scenarioDf.map (TablePostprocessor.ratioCount isNumericLike) = scenarioNr := by
  rw [map_ratioCount isNumericLike scenarioDf [0,0,3,3,3,3,3,0,3,3,3] [4,4,4,4,4,4,4,4,4,4,4]
    (by decide) (by decide)]
  norm_num [scenarioNr]

theorem scenario_ner :
    scenarioDf.map (TablePostprocessor.ratioCount isNonempty) = scenarioNer := by
  rw [map_ratioCount isNonempty scenarioDf [4,4,4,4,4,4,4,4,4,4,4] [4,4,4,4,4,4,4,4,4,4,4]
    (by decide) (by decide)]
  norm_num [scenarioNer]

theorem scenario_hh :
    scenarioDf.map (fun row => row.any hasHeaderTokens) = scenarioHh := by decide

theorem scenario_hs :
    TablePostprocessor.headerScores scenarioNr scenarioNer scenarioHh = scenarioHs := by
  norm_num [TablePostprocessor.headerScores, TablePostprocessor.headerTokenBoost,
    scenarioNr, scenarioNer, scenarioHh, scenarioHs]

theorem scenario_headerBlock :
    TablePostprocessor.detectHeaderBlock scenarioDf scenarioHs scenarioNr = [0, 1] := by
  have hcnt : ∀ r ∈ scenarioDf, r.countP isNonempty = 4 := by decide
  have h0 := hcnt ["Item", "Three Months Ended", "Notes", "Year"] (by decide)
  have h1 := hcnt ["Description", "Q1", "Q2", "Change"] (by decide)
  have h2 := hcnt ["alpha", "1", "2", "3"] (by decide)
  norm_num [TablePostprocessor.detectHeaderBlock, TablePostprocessor.detectHeaderScan,
    scenarioDf, h0, h1, h2, TablePostprocessor.minColsForHeader,
    TablePostprocessor.numericRatioHeaderMax, scenarioHs, scenarioNr]
  decide

theorem scenario_collapse :
    TablePostprocessor.collapseHeader scenarioDf [0, 1] = (scenarioBody, some scenarioHeader) := by
  decide

theorem scenario_rowPositions : TablePostprocessor.rowPositions scenarioCells =
    [200, 190, 180, 170, 160, 150, 140, 130, 120, 110, 100] := by
  unfold TablePostprocessor.rowPositions
  rw [show ((scenarioCells.map Cell.row).dedup).insertionSort (· ≤ ·) =
    (List.range 11) from by decide]
  rw [map_mean (List.range 11)
    [[200,200,200,200],[190,190,190,190],[180,180,180,180],[170,170,170,170],
     [160,160,160,160],[150,150,150,150],[140,140,140,140],[130,130,130,130],
     [120,120,120,120],[110,110,110,110],[100,100,100,100]] (by decide)]
  norm_num

theorem scenario_gaps : TablePostprocessor.rowGaps
    [200, 190, 180, 170, 160, 150, 140, 130, 120, 110, 100] =
    [10, 10, 10, 10, 10, 10, 10, 10, 10, 10] := by
  norm_num [TablePostprocessor.rowGaps]

theorem scenario_median :
    TablePostprocessor.median [10, 10, 10, 10, 10, 10, 10, 10, 10, (10:ℚ)] = 10 := by
  norm_num [TablePostprocessor.median, List.insertionSort, List.orderedInsert]

theorem scenario_hdrT_ne : ((scenarioHeader.flatMap tokenize).toFinset : Finset String) ≠ ∅ := by
  have hth : scenarioHeader.flatMap tokenize =
      ["item","description","three","months","ended","q1","notes","q2","year","change"] := by
    decide
  rw [hth]
  have hm : ("item" : String) ∈ (["item","description","three","months","ended","q1",
      "notes","q2","year","change"] : List String).toFinset :=
    List.mem_toFinset.mpr (by decide)
  exact Finset.ne_empty_of_mem hm

theorem scenario_check_skip (i : Nat) (hi : scenarioNr.getD i 0 = 3/4) (row : List String) :
    TablePostprocessor.reheaderCheck scenarioNr scenarioNer
      ((scenarioHeader.flatMap tokenize).toFinset) i row = none := by
  rw [TablePostprocessor.reheaderCheck, if_pos]
  rw [hi]
  norm_num [TablePostprocessor.reheaderAllowNumericRatioMax]

theorem scenario_check_tok (i : Nat) (hi : scenarioNr.getD i 0 = 0)
    (hni : scenarioNer.getD i 0 = 1) (row : List String)
    (htok : row.flatMap tokenize = row)
    (hdisj : ∀ x ∈ row, x ∉ (["item","description","three","months","ended","q1",
      "notes","q2","year","change"] : List String))
    (hnh : ¬ ∃ x ∈ row, hasHeaderTokens x = true) :
    TablePostprocessor.reheaderCheck scenarioNr scenarioNer
      ((scenarioHeader.flatMap tokenize).toFinset) i row = none := by
  have hth : scenarioHeader.flatMap tokenize =
      ["item","description","three","months","ended","q1","notes","q2","year","change"] := by
    decide
  have hj : jaccard ((row.flatMap tokenize).toFinset)
      ((scenarioHeader.flatMap tokenize).toFinset) = 0 := by
    rw [htok, hth]
    exact jaccard_eq_zero_of_disjoint _ _ (toFinset_inter_empty _ _ hdisj)
  rw [TablePostprocessor.reheaderCheck,
    if_neg (by rw [hi]; norm_num [TablePostprocessor.reheaderAllowNumericRatioMax]),
    if_neg (by rw [hni]; norm_num), if_pos scenario_hdrT_ne]
  show (if jaccard ((row.flatMap tokenize).toFinset)
      ((scenarioHeader.flatMap tokenize).toFinset) ≥ 2/10 then some i
    else if row.any hasHeaderTokens then some i else none) = none
  rw [hj, if_neg (by norm_num)]
  rw [if_neg]
  simpa using hnh

/-- The reheader scan comes up empty on the scenario: it reads the
full-table ratio arrays at body-relative positions, so the repeated-header
row (full-table position 7, body position 5) is scored with the wrong
ratios and never flagged. -/
theorem scenario_reheader :
    TablePostprocessor.detectReheaderRows scenarioBody scenarioNr scenarioNer
      (some scenarioHeader) = [] := by
  have hT : (if (some scenarioHeader).getD [] = [] then (∅ : Finset String)
      else (((some scenarioHeader).getD []).flatMap tokenize).toFinset) =
      (scenarioHeader.flatMap tokenize).toFinset := by
    rw [if_neg (by decide)]
    rfl
  have c0 := scenario_check_tok 0 (by norm_num [scenarioNr]) (by norm_num [scenarioNer])
    ["alpha","1","2","3"] (by decide) (by decide) (by decide)
  have c1 := scenario_check_tok 1 (by norm_num [scenarioNr]) (by norm_num [scenarioNer])
    ["beta","4","5","6"] (by decide) (by decide) (by decide)
  have c7 := scenario_check_tok 7 (by norm_num [scenarioNr]) (by norm_num [scenarioNer])
    ["eta","19","20","21"] (by decide) (by decide) (by decide)
  have c2 := scenario_check_skip 2 (by norm_num [scenarioNr]) ["gamma", "7", "8", "9"]
  have c3 := scenario_check_skip 3 (by norm_num [scenarioNr]) ["delta", "10", "11", "12"]
  have c4 := scenario_check_skip 4 (by norm_num [scenarioNr]) ["epsilon", "13", "14", "15"]
  have c5 := scenario_check_skip 5 (by norm_num [scenarioNr])
    ["Item", "Three Months Ended", "Notes", "Year"]
  have c6 := scenario_check_skip 6 (by norm_num [scenarioNr]) ["zeta", "16", "17", "18"]
  have c8 := scenario_check_skip 8 (by norm_num [scenarioNr]) ["theta", "22", "23", "24"]
  rw [TablePostprocessor.detectReheaderRows, if_neg (by decide)]
  rw [show scenarioBody.enum = [(0, 2, ["alpha", "1", "2", "3"]),
    (1, 3, ["beta", "4", "5", "6"]), (2, 4, ["gamma", "7", "8", "9"]),
    (3, 5, ["delta", "10", "11", "12"]), (4, 6, ["epsilon", "13", "14", "15"]),
    (5, 7, ["Item", "Three Months Ended", "Notes", "Year"]),
    (6, 8, ["zeta", "16", "17", "18"]), (7, 9, ["eta", "19", "20", "21"]),
    (8, 10, ["theta", "22", "23", "24"])] from by decide]
  simp only [hT, List.filterMap_cons, c0, c1, c2, c3, c4, c5, c6, c7, c8, List.filterMap_nil]
  rfl

theorem scenario_bbox :
    TablePostprocessor.bboxForRows scenarioCells [4, 5, 6, 7, 8, 9, 10] =
      Except.ok ⟨0, 100, 40, 170⟩ := by
  unfold TablePostprocessor.bboxForRows
  rw [show List.filter (fun c => [4, 5, 6, 7, 8, 9, 10].contains c.row) scenarioCells =
    [⟨4,0,0,160,10,170⟩, ⟨4,1,10,160,20,170⟩, ⟨4,2,20,160,30,170⟩, ⟨4,3,30,160,40,170⟩,
     ⟨5,0,0,150,10,160⟩, ⟨5,1,10,150,20,160⟩, ⟨5,2,20,150,30,160⟩, ⟨5,3,30,150,40,160⟩,
     ⟨6,0,0,140,10,150⟩, ⟨6,1,10,140,20,150⟩, ⟨6,2,20,140,30,150⟩, ⟨6,3,30,140,40,150⟩,
     ⟨7,0,0,130,10,140⟩, ⟨7,1,10,130,20,140⟩, ⟨7,2,20,130,30,140⟩, ⟨7,3,30,130,40,140⟩,
     ⟨8,0,0,120,10,130⟩, ⟨8,1,10,120,20,130⟩, ⟨8,2,20,120,30,130⟩, ⟨8,3,30,120,40,130⟩,
     ⟨9,0,0,110,10,120⟩, ⟨9,1,10,110,20,120⟩, ⟨9,2,20,110,30,120⟩, ⟨9,3,30,110,40,120⟩,
     ⟨10,0,0,100,10,110⟩, ⟨10,1,10,100,20,110⟩, ⟨10,2,20,100,30,110⟩, ⟨10,3,30,100,40,110⟩]
    from by decide]
  simp only []
  rw [if_neg (by decide)]
  simp only [List.map_cons, List.map_nil, List.foldl_cons, List.foldl_nil]
  norm_num [min_def, max_def]

set_option maxHeartbeats 2000000 in
/-- The full internal `_process_one` pipeline on the scenario produces ONE
element: body rows `alpha` and `beta` are dropped by the index-misaligned
slicer and the reheader row survives as data, so no split happens. -/
theorem scenario_processOne :
    TablePostprocessor.processOne scenarioElem = Except.ok [scenarioOutElem] := by
  have hdf : scenarioElem.meta.camelotTable.bind Table.df = some scenarioDf := rfl
  have hcl : scenarioElem.meta.camelotTable.bind Table.cells = some scenarioCells := rfl
  have h1 : scenarioDf.map (List.map normCell) = scenarioDf := by decide
  have hlast : ([0, 1] : List Nat).getLast? = some 1 := rfl
  have hmax : max (1 + 1) 0 = 2 := rfl
  have hgsp : (([10, 10, 10, 10, 10, 10, 10, 10, 10, (10:ℚ)]).enum.filterMap
      (fun ig => if ig.2 > TablePostprocessor.median
          [10, 10, 10, 10, 10, 10, 10, 10, 10, (10:ℚ)] * TablePostprocessor.gapMultiplier
        then some (ig.1 + 1) else none)) = [] := by
    rw [scenario_median]
    norm_num [TablePostprocessor.gapMultiplier, List.enum, List.enumFrom, List.filterMap_cons]
  have hslice : TablePostprocessor.sliceChunks scenarioBody [scenarioBody.length] 2 =
      [scenarioChunk] := by decide
  have hmapfst : scenarioChunk.map Prod.fst = [4, 5, 6, 7, 8, 9, 10] := by decide
  have hchne : (scenarioChunk = []) = False := by decide
  have hncne : (((scenarioDf.headD []).length) = 0) = False := by decide
  have hHempty : ((some scenarioHeader).getD [] = []) = False := by
    rw [show (some scenarioHeader).getD [] = scenarioHeader from rfl]
    exact eq_false (by decide)
  have hid : scenarioElem.meta.id = none := rfl
  simp only [TablePostprocessor.processOne, hdf, hcl, h1, scenario_nr, scenario_ner,
    scenario_hh, scenario_hs, scenario_headerBlock, scenario_collapse,
    scenario_rowPositions, scenario_gaps, scenario_reheader, hlast, hmax,
    List.nil_append, List.dedup_nil, List.filter_nil, List.insertionSort,
    hgsp, hslice, hchne, hncne, hHempty, List.foldlM_cons, List.foldlM_nil,
    hmapfst, scenario_bbox, except_bind_ok, except_map_ok, except_pure_eq_ok,
    hid, false_or, if_false, Option.getD_some, bind_pure]
  rw [if_neg (List.cons_ne_nil _ _)]
  exact congrArg Except.ok (by decide)

/-! ### Claim theorems -/

/-- C8: `iou` is symmetric; `iou(b, b) = 1` for a well-formed box of nonzero
area; and `iou` returns 0 when either box is absent, when the boxes are
disjoint, or when the union area is 0. -/
theorem iou_correct (b1 b2 : Option BBox) (c d : BBox) :
    iou b1 b2 = iou b2 b1 ∧
    iou none b1 = 0 ∧
    iou b1 none = 0 ∧
    (c.x0 ≤ c.x1 → c.y0 ≤ c.y1 → (c.x1 - c.x0) * (c.y1 - c.y0) ≠ 0 →
      iou (some c) (some c) = 1) ∧
    ((min c.x1 d.x1 ≤ max c.x0 d.x0 ∨ min c.y1 d.y1 ≤ max c.y0 d.y0) →
      iou (some c) (some d) = 0) ∧
    ((c.x1 - c.x0) * (c.y1 - c.y0) + (d.x1 - d.x0) * (d.y1 - d.y0) -
        max 0 (min c.x1 d.x1 - max c.x0 d.x0) * max 0 (min c.y1 d.y1 - max c.y0 d.y0) = 0 →
      iou (some c) (some d) = 0) := by
  refine ⟨iou_comm b1 b2, by cases b1 <;> rfl, by cases b1 <;> rfl, ?_, iou_of_disjoint c d, ?_⟩
  · intro hx hy hA
    simp only [iou, max_self, min_self]
    rw [max_eq_right (by linarith : (0:ℚ) ≤ c.x1 - c.x0),
      max_eq_right (by linarith : (0:ℚ) ≤ c.y1 - c.y0)]
    have hsum : (c.x1 - c.x0) * (c.y1 - c.y0) + (c.x1 - c.x0) * (c.y1 - c.y0) -
        (c.x1 - c.x0) * (c.y1 - c.y0) = (c.x1 - c.x0) * (c.y1 - c.y0) := by ring
    rw [hsum, if_neg hA, div_self hA]
  · intro h
    simp only [iou]
    rw [if_pos h]

/-- C6: after assembly, the ordinals of every page's elements are exactly
`0, …, N-1` in sorted order, each used once. -/
theorem build_parsed_pdf_ordinals (ex : ExtractedElements) (p : PdfPage)
    (hp : p ∈ (buildParsedPdf ex).pages) :
    p.elements.map PdfElement.order = (List.range p.elements.length).map Int.ofNat := by
  simp only [buildParsedPdf, List.mem_map] at hp
  obtain ⟨kv, _, rfl⟩ := hp
  show ((sortElements kv.2).mapIdx fun i el => { el with order := (i : Int) }).map
      PdfElement.order = _
  rw [mapIdx_order_eq_range, List.length_mapIdx]

/-- Witness for C6: a concrete two-element page receives ordinals `[0, 1]`. -/
theorem build_parsed_pdf_ordinals_witness :
    ((buildParsedPdf exC6).pages.headD { pageNumber := 0 }).elements.map PdfElement.order =
      (List.range
        ((buildParsedPdf exC6).pages.headD { pageNumber := 0 }).elements.length).map
        Int.ofNat ∧
    (buildParsedPdf exC6).pages.map (fun p => p.elements.map PdfElement.order) = [[0, 1]] :=
  ⟨build_parsed_pdf_ordinals exC6 _ (by decide), by decide⟩

/-- C7: the assembler's per-page sort is ordered by `(top, left)` with
bboxless elements after all bboxed ones, the bboxless ones preserving their
relative input order; and of the two elements with bboxes `(0,100,10,120)`
and `(50,100,60,120)` (equal tops), the one with the smaller left edge gets
the smaller ordinal. -/
theorem sort_elements_reading_order (l : List PdfElement) :
    (sortElements l).Pairwise elemLE ∧
    sortElements l =
      (sortElements l).filter (fun e => e.bbox.isSome) ++
        l.filter (fun e => e.bbox.isNone) ∧
    (buildParsedPdf exC7).pages.map (fun p => p.elements.map fun e => (e.content, e.order)) =
      [[(some "left", 0), (some "right", 1)]] := by
  have hsorted : (sortElements l).Pairwise elemLE := List.sorted_insertionSort elemLE l
  refine ⟨hsorted, ?_, ?_⟩
  · rw [← sortElements_filter_isNone l]
    exact sorted_filter_append _ hsorted
  · have hLE : ¬ elemLE elRight elLeft := by
      simp only [elemLE, sortKey, elRight, elLeft, keyLE]
      norm_num
    have hsort : sortElements [elRight, elLeft] = [elLeft, elRight] := by
      simp [sortElements, List.insertionSort, List.orderedInsert, hLE]
    have hpm : buildPageMap exC7 = [(1, [elRight, elLeft])] := rfl
    simp only [buildParsedPdf, hpm]
    norm_num [hsort]
    exact ⟨rfl, rfl⟩

/-- C2 (amended): the kept detection a candidate is treated as overlapping
(and possibly replacing) is the *first* kept detection, in accumulator
order, whose IOU with the candidate exceeds the threshold — not necessarily
the one with maximum IOU. -/
theorem dedupeStep_first_overlap (thr : ℚ) (acc : List Table) (t : Table) (i : Nat)
    (hb : t.bbox.isSome = true) (hi : i < acc.length)
    (hbefore : ∀ j (hj : j < i), iou t.bbox (acc.get ⟨j, hj.trans hi⟩).bbox ≤ thr)
    (hover : thr < iou t.bbox (acc.get ⟨i, hi⟩).bbox) :
    dedupeStep thr acc t =
      if t.flavor = "stream" ∧ (acc.get ⟨i, hi⟩).flavor = "lattice"
      then acc.set i t else acc := by
  obtain ⟨b, hb⟩ := Option.isSome_iff_exists.mp hb
  have hfi : acc.findIdx? (fun u => decide (thr < iou t.bbox u.bbox)) = some i :=
    findIdx?_eq_some_of_first _ acc i hi
      (fun j hj => by simpa using not_lt.mpr (hbefore j hj))
      (by simpa using hover)
  rw [dedupeStep_of_overlap hb hfi, List.getD_eq_getElem?_getD,
    List.getElem?_eq_getElem hi]
  rfl

/-- Witness for the amended C2: the stream candidate `tabStr` overlaps both
kept detections; the first one (`tabLatA`) is the one replaced. -/
theorem dedupeStep_first_overlap_witness :
    dedupeStep TABLE_IOU_THRESHOLD [tabLatA, tabLatB] tabStr = [tabStr, tabLatB] := by
  have h := dedupeStep_first_overlap TABLE_IOU_THRESHOLD [tabLatA, tabLatB] tabStr 0
    rfl (by norm_num)
    (fun j hj => absurd hj (Nat.not_lt_zero j))
    (by norm_num [iou, tabStr, tabLatA, TABLE_IOU_THRESHOLD])
  rw [h, if_pos ⟨rfl, rfl⟩]
  rfl

/-- C2 (counterexample): the candidate `tabStr` overlaps both kept
detections above the threshold, with the strictly larger IOU against
`tabLatB`, yet the merger treats `tabLatA` — the first match, not the
maximum — as the overlapping item and replaces it. -/
theorem dedupe_first_match_counterexample :
    TABLE_IOU_THRESHOLD < iou tabStr.bbox tabLatA.bbox ∧
    TABLE_IOU_THRESHOLD < iou tabStr.bbox tabLatB.bbox ∧
    iou tabStr.bbox tabLatA.bbox < iou tabStr.bbox tabLatB.bbox ∧
    dedupeByBbox TABLE_IOU_THRESHOLD [tabLatA, tabLatB] = [tabLatA, tabLatB] ∧
    dedupeByBbox TABLE_IOU_THRESHOLD [tabLatA, tabLatB, tabStr] = [tabStr, tabLatB] := by
  have hAB : ¬ (TABLE_IOU_THRESHOLD < iou tabLatB.bbox tabLatA.bbox) := by
    norm_num [iou, tabLatA, tabLatB, TABLE_IOU_THRESHOLD]
  have hSA : TABLE_IOU_THRESHOLD < iou tabStr.bbox tabLatA.bbox := by
    norm_num [iou, tabStr, tabLatA, TABLE_IOU_THRESHOLD]
  refine ⟨hSA, ?_, ?_, ?_, ?_⟩
  · norm_num [iou, tabStr, tabLatB, TABLE_IOU_THRESHOLD]
  · norm_num [iou, tabStr, tabLatA, tabLatB]
  · simp only [dedupeByBbox, List.foldl_cons, List.foldl_nil]
    rw [@dedupeStep_of_no_overlap TABLE_IOU_THRESHOLD [] tabLatA ⟨0, 0, 10, 10⟩ rfl (by simp)]
    simp only [List.nil_append]
    rw [@dedupeStep_of_no_overlap TABLE_IOU_THRESHOLD [tabLatA] tabLatB ⟨3, 0, 13, 10⟩ rfl
      (by simp [List.findIdx?_cons, List.findIdx?_succ, hAB])]
    rfl
  · simp only [dedupeByBbox, List.foldl_cons, List.foldl_nil]
    rw [@dedupeStep_of_no_overlap TABLE_IOU_THRESHOLD [] tabLatA ⟨0, 0, 10, 10⟩ rfl (by simp)]
    simp only [List.nil_append]
    rw [@dedupeStep_of_no_overlap TABLE_IOU_THRESHOLD [tabLatA] tabLatB ⟨3, 0, 13, 10⟩ rfl
      (by simp [List.findIdx?_cons, List.findIdx?_succ, hAB])]
    simp only [List.singleton_append]
    rw [@dedupeStep_of_overlap TABLE_IOU_THRESHOLD [tabLatA, tabLatB] tabStr ⟨2, 0, 12, 10⟩ 0 rfl
      (by simp [List.findIdx?_cons, hSA])]
    rw [if_pos ⟨rfl, rfl⟩]
    rfl

/-- C3 (amended): provided no candidate triggers the stream-over-lattice
replacement (in particular when no detection has flavor `"stream"`), the
merger's output has no pair above the IOU threshold and re-running the
merger on its output leaves it unchanged. -/
theorem dedupe_no_overlap_and_idempotent (thr : ℚ) (dets : List Table)
    (h : ∀ t ∈ dets, t.flavor ≠ "stream") :
    (dedupeByBbox thr dets).Pairwise (fun a b => iou a.bbox b.bbox ≤ thr) ∧
    dedupeByBbox thr (dedupeByBbox thr dets) = dedupeByBbox thr dets := by
  have hinv : dedupInv thr (dedupeByBbox thr dets) :=
    dedupe_foldl_inv dets [] h ⟨List.Pairwise.nil, by simp⟩
  refine ⟨hinv.1, ?_⟩
  show (dedupeByBbox thr dets).foldl (dedupeStep thr) [] = dedupeByBbox thr dets
  rw [dedupe_foldl_of_inv (dedupeByBbox thr dets) []
    (by simpa using hinv.2) (by simpa using hinv.1)]
  simp

/-- Witness for the amended C3 on two lattice-flavor detections. -/
theorem dedupe_no_overlap_and_idempotent_witness :
    (dedupeByBbox TABLE_IOU_THRESHOLD [tabLatA, tabLatB]).Pairwise
      (fun a b => iou a.bbox b.bbox ≤ TABLE_IOU_THRESHOLD) ∧
    dedupeByBbox TABLE_IOU_THRESHOLD (dedupeByBbox TABLE_IOU_THRESHOLD [tabLatA, tabLatB]) =
      dedupeByBbox TABLE_IOU_THRESHOLD [tabLatA, tabLatB] :=
  dedupe_no_overlap_and_idempotent TABLE_IOU_THRESHOLD [tabLatA, tabLatB]
    (by decide)

/-- C3 (counterexample): after the stream candidate replaces the first
lattice detection, the output `[tabStr, tabLatB]` holds a pair with IOU
`9/11 > 0.6`, and running the merger again reduces it further: the merger is
not idempotent and its output is not overlap-free. -/
theorem dedupe_overlap_counterexample :
    TABLE_IOU_THRESHOLD < iou tabStr.bbox tabLatB.bbox ∧
    dedupeByBbox TABLE_IOU_THRESHOLD [tabLatA, tabLatB, tabStr] = [tabStr, tabLatB] ∧
    dedupeByBbox TABLE_IOU_THRESHOLD (dedupeByBbox TABLE_IOU_THRESHOLD [tabLatA, tabLatB, tabStr]) ≠
      dedupeByBbox TABLE_IOU_THRESHOLD [tabLatA, tabLatB, tabStr] := by
  have hAB : ¬ (TABLE_IOU_THRESHOLD < iou tabLatB.bbox tabLatA.bbox) := by
    norm_num [iou, tabLatA, tabLatB, TABLE_IOU_THRESHOLD]
  have hSA : TABLE_IOU_THRESHOLD < iou tabStr.bbox tabLatA.bbox := by
    norm_num [iou, tabStr, tabLatA, TABLE_IOU_THRESHOLD]
  have hBS : TABLE_IOU_THRESHOLD < iou tabLatB.bbox tabStr.bbox := by
    norm_num [iou, tabLatB, tabStr, TABLE_IOU_THRESHOLD]
  have hmain : dedupeByBbox TABLE_IOU_THRESHOLD [tabLatA, tabLatB, tabStr] = [tabStr, tabLatB] := by
    simp only [dedupeByBbox, List.foldl_cons, List.foldl_nil]
    rw [@dedupeStep_of_no_overlap TABLE_IOU_THRESHOLD [] tabLatA ⟨0, 0, 10, 10⟩ rfl (by simp)]
    simp only [List.nil_append]
    rw [@dedupeStep_of_no_overlap TABLE_IOU_THRESHOLD [tabLatA] tabLatB ⟨3, 0, 13, 10⟩ rfl
      (by simp [List.findIdx?_cons, List.findIdx?_succ, hAB])]
    simp only [List.singleton_append]
    rw [@dedupeStep_of_overlap TABLE_IOU_THRESHOLD [tabLatA, tabLatB] tabStr ⟨2, 0, 12, 10⟩ 0 rfl
      (by simp [List.findIdx?_cons, hSA])]
    rw [if_pos ⟨rfl, rfl⟩]
    rfl
  have hsecond : dedupeByBbox TABLE_IOU_THRESHOLD [tabStr, tabLatB] = [tabStr] := by
    simp only [dedupeByBbox, List.foldl_cons, List.foldl_nil]
    rw [@dedupeStep_of_no_overlap TABLE_IOU_THRESHOLD [] tabStr ⟨2, 0, 12, 10⟩ rfl (by simp)]
    simp only [List.nil_append]
    rw [@dedupeStep_of_overlap TABLE_IOU_THRESHOLD [tabStr] tabLatB ⟨3, 0, 13, 10⟩ 0 rfl
      (by simp [List.findIdx?_cons, hBS])]
    rw [if_neg (fun hc => by exact absurd hc.1 (by decide))]
  refine ⟨by norm_num [iou, tabStr, tabLatB, TABLE_IOU_THRESHOLD], hmain, ?_⟩
  rw [hmain, hsecond]
  intro hcontra
  exact absurd (congrArg List.length hcontra) (by decide)

/-- C4: when two detections overlap above the threshold, the candidate
replaces the kept one exactly when the candidate's flavor is `"stream"` and
the kept one's is `"lattice"`; in every other flavor combination the
candidate is discarded and the kept detection survives. -/
theorem dedupe_tiebreak (thr : ℚ) (d1 d2 : Table)
    (h1 : d1.bbox.isSome = true) (h2 : d2.bbox.isSome = true)
    (hov : thr < iou d2.bbox d1.bbox) :
    dedupeByBbox thr [d1, d2] =
      if d2.flavor = "stream" ∧ d1.flavor = "lattice" then [d2] else [d1] := by
  obtain ⟨b1, hb1⟩ := Option.isSome_iff_exists.mp h1
  obtain ⟨b2, hb2⟩ := Option.isSome_iff_exists.mp h2
  simp only [dedupeByBbox, List.foldl_cons, List.foldl_nil]
  rw [dedupeStep_of_no_overlap hb1 (by simp)]
  simp only [List.nil_append]
  rw [@dedupeStep_of_overlap thr [d1] d2 b2 0 hb2
    (by simp [List.findIdx?_cons, hov])]
  by_cases hc : d2.flavor = "stream" ∧ d1.flavor = "lattice"
  · rw [if_pos ⟨hc.1, hc.2⟩, if_pos hc]
    rfl
  · rw [if_neg (fun hx => hc ⟨hx.1, hx.2⟩), if_neg hc]

/-- Witness for C4: the IOU-0.8 lattice/stream pair, in both input orders,
leaves exactly one survivor, of flavor `"stream"`. -/
theorem dedupe_tiebreak_witness :
    iou tab08Str.bbox tab08Lat.bbox = 8 / 10 ∧
    dedupeByBbox TABLE_IOU_THRESHOLD [tab08Lat, tab08Str] = [tab08Str] ∧
    dedupeByBbox TABLE_IOU_THRESHOLD [tab08Str, tab08Lat] = [tab08Str] := by
  have hiou : iou tab08Str.bbox tab08Lat.bbox = 8 / 10 := by
    norm_num [iou, tab08Str, tab08Lat]
  have hiou' : iou tab08Lat.bbox tab08Str.bbox = 8 / 10 := by
    norm_num [iou, tab08Str, tab08Lat]
  refine ⟨hiou, ?_, ?_⟩
  · rw [dedupe_tiebreak TABLE_IOU_THRESHOLD tab08Lat tab08Str rfl rfl
      (by rw [hiou]; norm_num [TABLE_IOU_THRESHOLD])]
    rw [if_pos ⟨rfl, rfl⟩]
  · rw [dedupe_tiebreak TABLE_IOU_THRESHOLD tab08Str tab08Lat rfl rfl
      (by rw [hiou']; norm_num [TABLE_IOU_THRESHOLD])]
    rw [if_neg (fun hc => by exact absurd hc.1 (by decide))]

/-- C9: on line elements that all carry a bbox, the block grouping merges a
line into the current block exactly when the gap/font condition holds of it
and the previous line (otherwise a new block starts with it), and every
block — single-line blocks included — is emitted as one element. -/
theorem group_lines_into_blocks_spec (yGap : ℚ) (lines : List PdfElement)
    (h : ∀ l ∈ lines, l.bbox.isSome = true) :
    TextExtractor.groupBlocks yGap lines =
      TextExtractor.specChunks (TextExtractor.lineMergeCond yGap) lines ∧
    ∃ els, TextExtractor.groupLinesIntoBlocks yGap lines = some els ∧
      els.length =
        (TextExtractor.specChunks (TextExtractor.lineMergeCond yGap) lines).length := by
  have hgb := groupBlocks_eq_specChunks yGap lines h
  refine ⟨hgb, ?_⟩
  by_cases hl : lines = []
  · subst hl
    exact ⟨[], rfl, rfl⟩
  · have hall : ∀ c ∈ TextExtractor.specChunks (TextExtractor.lineMergeCond yGap) lines,
        ∃ el, TextExtractor.mergeBlock c = some el := by
      intro c hc
      have hsnd := specChunks_sound (TextExtractor.lineMergeCond yGap) lines c hc
      exact mergeBlock_isSome c hsnd.1 (fun e he => h e (hsnd.2 e he))
    obtain ⟨els, hels, hlen⟩ := mapM_mergeBlock_isSome _ hall
    refine ⟨els, ?_, hlen⟩
    unfold TextExtractor.groupLinesIntoBlocks
    rw [if_neg hl, hgb, hels]

/-- Witness for C9 on three concrete lines: the first two merge (gap 4,
same style), the third starts a new block; two blocks, two elements. -/
theorem group_lines_into_blocks_spec_witness :
    TextExtractor.groupBlocks 8 [lineA, lineB, lineC] =
      TextExtractor.specChunks (TextExtractor.lineMergeCond 8) [lineA, lineB, lineC] ∧
    ∃ els, TextExtractor.groupLinesIntoBlocks 8 [lineA, lineB, lineC] = some els ∧
      els.length =
        (TextExtractor.specChunks (TextExtractor.lineMergeCond 8)
          [lineA, lineB, lineC]).length :=
  group_lines_into_blocks_spec 8 [lineA, lineB, lineC] (by decide)

/-- C10: flattening a page with tables included raises (returns no string)
exactly when some table element has nonempty rows holding a `None` cell;
and the table extractor's cell normalization stores blank cells as `None`. -/
theorem stringify_blank_cells (els : List PdfElement) (n : Int) (s : String) :
    ((stringifyPage true false { pageNumber := n, elements := els }).isNone = true ↔
      ∃ el ∈ els, el.type = ElementType.table ∧
        ∃ rows, el.rows = some rows ∧ rows ≠ [] ∧ ∃ r ∈ rows, none ∈ r) ∧
    (pyStrip s = "" → normalizeCell s = none) := by
  constructor
  · rw [show stringifyPage true false { pageNumber := n, elements := els } =
        (collectLines true false (els.insertionSort orderLE)).map
          (fun lines => pyStrip (String.intercalate "\n\n" lines)) from rfl]
    rw [Option.isNone_iff_eq_none, Option.map_eq_none', collectLines_eq_none_iff]
    constructor
    · rintro ⟨el, hel, hnone⟩
      exact ⟨el, (List.mem_insertionSort orderLE).mp hel,
        (elementLines_eq_none_iff el).mp hnone⟩
    · rintro ⟨el, hel, hbad⟩
      exact ⟨el, (List.mem_insertionSort orderLE).mpr hel,
        (elementLines_eq_none_iff el).mpr hbad⟩
  · intro hblank
    unfold normalizeCell
    rw [if_pos hblank]

/-- Witness for C10: a page holding a table row with a blank (`None`) cell
flattens to no string, and a whitespace-only raw cell normalizes to `None`. -/
theorem stringify_blank_cells_witness :
    (stringifyPage true false { pageNumber := 1, elements := [badTableElem] }).isNone = true ∧
    normalizeCell "  " = none := by
  obtain ⟨hiff, himp⟩ := stringify_blank_cells [badTableElem] 1 "  "
  refine ⟨hiff.mpr ⟨badTableElem, by simp, rfl, [[some "a", none]], rfl, by simp,
    [some "a", none], by simp, by simp⟩, himp (by decide)⟩

/-- C1: evaluated at the spec's header-split scenario detection, the public
`process` operation of the table post-processor returns its input unchanged:
the page keeps its single original table element instead of the two logical
tables the spec requires (the splitting pipeline lives in the uninvoked
`_process`/`_process_one`). Moreover even the uninvoked internal `_process`
does not realize the spec's behavior on this input: it yields a single
element whose row grid is the collapsed header plus seven of the nine body
rows (rows `alpha` and `beta` are dropped, and the repeated-header row is
retained as data rather than starting a second table). -/
theorem process_passthrough_at_scenario :
    TablePostprocessor.process scenarioPages = scenarioPages ∧
    (TablePostprocessor.process scenarioPages).map (fun pe => pe.2.length) = [1] ∧
    (TablePostprocessor.process scenarioPages).map (fun pe => pe.2.map PdfElement.rows) =
      [[some (scenarioDf.map (fun r => r.map some))]] ∧
    TablePostprocessor.processPages scenarioPages = [(1, [scenarioOutElem])] ∧
    scenarioOutElem.rows =
      some ((scenarioHeader.map some) :: scenarioChunk.map (fun pr => pr.2.map some)) ∧
    (scenarioOutElem.rows.getD []).length = 8 := by
  have hpe : TablePostprocessor.processElem scenarioElem = [scenarioOutElem] := by
    unfold TablePostprocessor.processElem
    rw [if_neg (by decide), scenario_processOne]
  refine ⟨rfl, rfl, rfl, ?_, rfl, by decide⟩
  simp only [TablePostprocessor.processPages, scenarioPages, List.map_cons, List.map_nil,
    List.flatMap_cons, List.flatMap_nil, hpe, List.append_nil]

/-- C5: a table element whose detection carries no dataframe or no cell
geometry is returned unchanged as a single element by `_process_one`, and
the per-element wrapper of `_process` turns any exception from
`_process_one` into the unchanged element — it never raises. -/
theorem postprocess_fail_soft (e : PdfElement) :
    ((e.meta.camelotTable.bind Table.df = none ∨
        e.meta.camelotTable.bind Table.cells = none) →
      TablePostprocessor.processOne e = Except.ok [e] ∧
        TablePostprocessor.processElem e = [e]) ∧
    ∀ err, TablePostprocessor.processOne e = Except.error err →
      TablePostprocessor.processElem e = [e] := by
  have helem : (TablePostprocessor.processOne e = Except.ok [e] ∨
        ∃ err, TablePostprocessor.processOne e = Except.error err) →
      TablePostprocessor.processElem e = [e] := by
    intro h
    by_cases ht : e.type = ElementType.table
    · rcases h with h | ⟨err, h⟩ <;>
        simp only [TablePostprocessor.processElem, ht, ne_eq, not_true_eq_false,
          if_false, h]
    · simp [TablePostprocessor.processElem, ht]
  have hone : (e.meta.camelotTable.bind Table.df = none ∨
      e.meta.camelotTable.bind Table.cells = none) →
      TablePostprocessor.processOne e = Except.ok [e] := by
    intro h
    rcases h with h | h
    · cases hc : e.meta.camelotTable.bind Table.cells <;>
        simp only [TablePostprocessor.processOne, h, hc]
    · cases hd : e.meta.camelotTable.bind Table.df <;>
        simp only [TablePostprocessor.processOne, h, hd]
  constructor
  · intro h
    exact ⟨hone h, helem (Or.inl (hone h))⟩
  · intro err herr
    exact helem (Or.inr ⟨err, herr⟩)

/-- Witness for C5: a concrete table element whose detection has `cells =
None` passes through `_process_one` unchanged. -/
theorem postprocess_fail_soft_witness :
    TablePostprocessor.processOne elemNoGeom = Except.ok [elemNoGeom] ∧
    TablePostprocessor.processElem elemNoGeom = [elemNoGeom] :=
  (postprocess_fail_soft elemNoGeom).1 (Or.inr rfl)

/-- Witness for C8 at concrete boxes. -/
theorem iou_correct_witness :
    iou (some ⟨0, 0, 10, 10⟩) (some ⟨0, 0, 10, 10⟩) = 1 ∧
    iou (some ⟨0, 0, 1, 1⟩) (some ⟨5, 5, 6, 6⟩) = 0 ∧
    iou (some ⟨0, 0, 0, 0⟩) (some ⟨0, 0, 0, 0⟩) = 0 := by
  refine ⟨?_, ?_, ?_⟩
  · exact (iou_correct none none ⟨0, 0, 10, 10⟩ ⟨0, 0, 10, 10⟩).2.2.2.1
      (by norm_num) (by norm_num) (by norm_num)
  · exact (iou_correct none none ⟨0, 0, 1, 1⟩ ⟨5, 5, 6, 6⟩).2.2.2.2.1
      (by norm_num)
  · exact (iou_correct none none ⟨0, 0, 0, 0⟩ ⟨0, 0, 0, 0⟩).2.2.2.2.2
      (by norm_num)

end PdfNinja
